import Mathlib

/-!
# goroq: the chat session loop and the request/response exchange

A shallow embedding of `main.go`.  Go strings and byte slices are lists of bytes
(naturals below 256).  The process environment, the lines of standard input and
the remote service are explicit arguments; standard output is accumulated in the
session state.  `encoding/json` (standard library) is modelled in the second part
of the file.
-/

namespace Goroq

/-- A Go `string` / `[]byte`: its bytes, in order. -/
abbrev GoString := List Nat

/-- The bytes (UTF-8) of a string literal of the source. -/
def str (s : String) : GoString :=
  (s.toList.flatMap String.utf8EncodeChar).map UInt8.toNat

/-- The `%d` verb of `fmt` on an `int`: decimal digits, with a leading minus sign
for a negative number. -/
def fmtInt (n : Int) : GoString :=
  match n with
  | Int.ofNat k => (Nat.toDigits 10 k).map Char.toNat
  | Int.negSucc k => 45 :: (Nat.toDigits 10 (k + 1)).map Char.toNat

/-- Constant `apiURL`. -/
def apiURL : GoString := str "https://api.groq.com/openai/v1/chat/completions"

/-- Constant `http.StatusOK`. -/
def StatusOK : Int := 200

/-- Type `Message`. -/
structure Message where
  Role : GoString
  Content : GoString
deriving DecidableEq, Repr

/-- Type `Request`. -/
structure Request where
  Model : GoString
  Messages : List Message
deriving DecidableEq, Repr

/-- One element of `Response.Choices` (an anonymous struct in the source). -/
structure Choice where
  Message : Message
deriving DecidableEq, Repr

/-- Type `Response`. -/
structure Response where
  Choices : List Choice
deriving DecidableEq, Repr

/-- An `*http.Request` as built by `sendRequest`: method, URL, the headers set, and
the body. -/
structure HttpRequest where
  Method : GoString
  URL : GoString
  Header : List (GoString × GoString)
  Body : GoString
deriving DecidableEq, Repr

/-- An `*http.Response` as far as `sendRequest` looks at it: the status code and
what `io.ReadAll(resp.Body)` gives (the bytes, or a read error). -/
structure HttpResponse where
  StatusCode : Int
  Body : Except GoString GoString

/-- What the program does not compute itself.  `Do n req` is the result of the
`n`-th call of `client.Do` of the process (calls are counted from 0) on the
request `req`: a transport error or a response.  `Unmarshal body` is the result
of `json.Unmarshal(body, &response)` on a zero `Response`; it is a parameter, so
that what is proved about the session holds for every decoder, and
`unmarshalResponse` below is the decoder of the library.  Errors are represented
by their message. -/
structure Runtime where
  Do : Nat → HttpRequest → Except GoString HttpResponse
  Unmarshal : GoString → Except GoString Response

/-! ## `unicode/utf8` and the encoder of `encoding/json` (standard library)

The program serialises its payload with `json.Marshal`.  The definitions below
follow the library: `utf8.DecodeRuneInString`, `utf8.AppendRune`, and the string,
struct and slice encoders of `encoding/json` (with HTML escaping, as `Marshal`
uses them).  Masks and shifts on bytes are written with `%`, `/` and `*`; an
"or" of disjoint bit fields is written `+`. -/

/-- Constant `utf8.RuneError` (U+FFFD). -/
def RuneError : Nat := 0xFFFD

/-- Tables `first` and `acceptRanges` of `unicode/utf8`: for a lead byte of a
multi-byte sequence, the length of the sequence and the accepted range of the
second byte; `none` for a byte that cannot start one. -/
def utf8First (s0 : Nat) : Option (Nat × Nat × Nat) :=
  if 0xC2 ≤ s0 ∧ s0 ≤ 0xDF then some (2, 0x80, 0xBF)
  else if s0 = 0xE0 then some (3, 0xA0, 0xBF)
  else if 0xE1 ≤ s0 ∧ s0 ≤ 0xEC then some (3, 0x80, 0xBF)
  else if s0 = 0xED then some (3, 0x80, 0x9F)
  else if 0xEE ≤ s0 ∧ s0 ≤ 0xEF then some (3, 0x80, 0xBF)
  else if s0 = 0xF0 then some (4, 0x90, 0xBF)
  else if 0xF1 ≤ s0 ∧ s0 ≤ 0xF3 then some (4, 0x80, 0xBF)
  else if s0 = 0xF4 then some (4, 0x80, 0x8F)
  else none

/-- Function `utf8.DecodeRuneInString`: the first rune of `s` and its width in
bytes; `(RuneError, 0)` for the empty string and `(RuneError, 1)` for an invalid
encoding. -/
def decodeRune : GoString → Nat × Nat
  | [] => (RuneError, 0)
  | s0 :: rest =>
    if s0 < 0x80 then (s0, 1)
    else
      match utf8First s0 with
      | none => (RuneError, 1)
      | some (sz, lo, hi) =>
        if rest.length + 1 < sz then (RuneError, 1)
        else
          match rest with
          | [] => (RuneError, 1)
          | s1 :: rest1 =>
            if s1 < lo ∨ hi < s1 then (RuneError, 1)
            else if sz ≤ 2 then (s0 % 32 * 64 + s1 % 64, 2)
            else
              match rest1 with
              | [] => (RuneError, 1)
              | s2 :: rest2 =>
                if s2 < 0x80 ∨ 0xBF < s2 then (RuneError, 1)
                else if sz ≤ 3 then (s0 % 16 * 4096 + s1 % 64 * 64 + s2 % 64, 3)
                else
                  match rest2 with
                  | [] => (RuneError, 1)
                  | s3 :: _ =>
                    if s3 < 0x80 ∨ 0xBF < s3 then (RuneError, 1)
                    else (s0 % 8 * 262144 + s1 % 64 * 4096 + s2 % 64 * 64 + s3 % 64, 4)

/-- Function `utf8.AppendRune` on an empty buffer: the UTF-8 encoding of a rune;
a surrogate or a value above U+10FFFF is encoded as U+FFFD. -/
def appendRune (r : Nat) : GoString :=
  if r ≤ 0x7F then [r]
  else if r ≤ 0x7FF then [0xC0 + r / 64, 0x80 + r % 64]
  else if r > 0x10FFFF ∨ (0xD800 ≤ r ∧ r ≤ 0xDFFF) then [0xEF, 0xBF, 0xBD]
  else if r ≤ 0xFFFF then [0xE0 + r / 4096, 0x80 + r / 64 % 64, 0x80 + r % 64]
  else [0xF0 + r / 262144, 0x80 + r / 4096 % 64, 0x80 + r / 64 % 64, 0x80 + r % 64]

/-- Function `utf8.ValidString`, as a scan: no position of the scan decodes to
`(RuneError, 1)`.  The first argument bounds the number of steps. -/
def validUTF8Loop : Nat → GoString → Bool
  | 0, s => s.isEmpty
  | _ + 1, [] => true
  | fuel + 1, b :: rest =>
    if b < 0x80 then validUTF8Loop fuel rest
    else
      let d := decodeRune (b :: rest)
      if d.2 = 1 then false
      else validUTF8Loop fuel (rest.drop (d.2 - 1))

/-- Function `utf8.ValidString`. -/
def validUTF8 (s : GoString) : Bool := validUTF8Loop s.length s

/-- Table `hex` of `encoding/json`: the digit of a value below 16. -/
def hexDigit (n : Nat) : Nat := if n < 10 then 48 + n else 87 + n

/-- Table `htmlSafeSet` of `encoding/json`: the ASCII bytes that are copied
unescaped: all from the space on except the quote, the backslash, `<`, `>`
and `&`. -/
def htmlSafe (b : Nat) : Bool :=
  decide (0x20 ≤ b ∧ b < 0x80 ∧ b ≠ 0x22 ∧ b ≠ 0x5C ∧ b ≠ 0x3C ∧ b ≠ 0x3E ∧ b ≠ 0x26)

/-- The escape written by `appendString` for an ASCII byte outside
`htmlSafeSet`. -/
def escapeByte (b : Nat) : GoString :=
  if b = 0x5C ∨ b = 0x22 then [0x5C, b]
  else if b = 0x08 then [0x5C, 0x62]
  else if b = 0x0C then [0x5C, 0x66]
  else if b = 0x0A then [0x5C, 0x6E]
  else if b = 0x0D then [0x5C, 0x72]
  else if b = 0x09 then [0x5C, 0x74]
  else [0x5C, 0x75, 0x30, 0x30, hexDigit (b / 16), hexDigit (b % 16)]

/-- The loop of `appendString` of `encoding/json` on the rest `src[i:]` of the
string: the bytes appended between the two quotes.  The first argument bounds
the number of iterations. -/
def appendStringLoop : Nat → GoString → GoString
  | 0, _ => []
  | _ + 1, [] => []
  | fuel + 1, b :: rest =>
    if b < 0x80 then
      if htmlSafe b then b :: appendStringLoop fuel rest
      else escapeByte b ++ appendStringLoop fuel rest
    else
      let d := decodeRune (b :: rest)
      if d.1 = RuneError ∧ d.2 = 1 then
        [0x5C, 0x75, 0x66, 0x66, 0x66, 0x64] ++ appendStringLoop fuel rest
      else if d.1 = 0x2028 ∨ d.1 = 0x2029 then
        [0x5C, 0x75, 0x32, 0x30, 0x32, hexDigit (d.1 % 16)]
          ++ appendStringLoop fuel (rest.drop (d.2 - 1))
      else
        b :: rest.take (d.2 - 1) ++ appendStringLoop fuel (rest.drop (d.2 - 1))

/-- Function `appendString` of `encoding/json`: a Go string as a JSON string
literal. -/
def appendString (s : GoString) : GoString :=
  0x22 :: appendStringLoop s.length s ++ [0x22]

/-- The struct encoder of `encoding/json` on a `Message`: the fields in
declaration order under their tags `role` and `content`. -/
def marshalMessage (m : Message) : GoString :=
  str "\x7b\"role\":" ++ appendString m.Role ++ str ",\"content\":"
    ++ appendString m.Content ++ str "\x7d"

/-- The elements of a slice of `Message`, separated by commas. -/
def marshalElems : List Message → GoString
  | [] => []
  | [m] => marshalMessage m
  | m :: ms => marshalMessage m ++ 0x2C :: marshalElems ms

/-- The slice encoder of `encoding/json` on a non-nil `[]Message` (the slice of
`main` is created as `[]Message{}` and is never nil). -/
def marshalMessages (ms : List Message) : GoString :=
  0x5B :: marshalElems ms ++ [0x5D]

/-- Function `json.Marshal` on a `Request`: fields `model` and `messages`. -/
def marshalRequest (r : Request) : GoString :=
  str "\x7b\"model\":" ++ appendString r.Model ++ str ",\"messages\":"
    ++ marshalMessages r.Messages ++ str "\x7d"

/-! ## The decoder of `encoding/json` (standard library)

`json.Unmarshal` first checks that the whole input is one well-formed JSON value
(the scanner) and then stores the value into the Go variable.  The parser below
accepts what the scanner accepts and builds the value; the functions
`decode...` store a value into a `Message`, a `[]Message` and a `Response`. -/

/-- A JSON value; a number keeps its text, a string is held unquoted. -/
inductive Json where
  | null : Json
  | bool (b : Bool) : Json
  | num (raw : GoString) : Json
  | str (s : GoString) : Json
  | arr (elems : List Json) : Json
  | obj (members : List (GoString × Json)) : Json

/-- Constant `maxNestingDepth` of the scanner. -/
def maxNestingDepth : Nat := 10000

/-- Function `isSpace` of the scanner. -/
def isSpace (c : Nat) : Bool :=
  decide (c = 0x20 ∨ c = 0x09 ∨ c = 0x0D ∨ c = 0x0A)

/-- The input without its leading white space. -/
def skipSpace : GoString → GoString
  | [] => []
  | c :: rest => if isSpace c then skipSpace rest else c :: rest

/-- A hexadecimal digit of either case. -/
def isHex (c : Nat) : Bool :=
  decide ((0x30 ≤ c ∧ c ≤ 0x39) ∨ (0x61 ≤ c ∧ c ≤ 0x66) ∨ (0x41 ≤ c ∧ c ≤ 0x46))

/-- The value of a hexadecimal digit. -/
def hexVal (c : Nat) : Nat :=
  if 0x30 ≤ c ∧ c ≤ 0x39 then c - 0x30
  else if 0x61 ≤ c ∧ c ≤ 0x66 then c - 0x61 + 10
  else c - 0x41 + 10

/-- The states of the scanner inside a string literal: `stateInString`,
`stateInStringEsc`, `stateInStringEscU`, `stateInStringEscU1`,
`stateInStringEscU12` and `stateInStringEscU123`. -/
inductive StringState where
  | inString : StringState
  | inStringEsc : StringState
  | inStringEscU : StringState
  | inStringEscU1 : StringState
  | inStringEscU12 : StringState
  | inStringEscU123 : StringState
deriving DecidableEq, Repr

/-- The scanner inside a string literal, one byte per step: from a state and the
input, the raw bytes up to the closing quote and the input after it; `none` for a
byte the state does not accept or an unterminated literal. -/
def scanStringFrom : StringState → GoString → Option (GoString × GoString)
  | _, [] => none
  | StringState.inString, c :: rest =>
    if c = 0x22 then some ([], rest)
    else if c = 0x5C then
      (scanStringFrom StringState.inStringEsc rest).map (fun p => (c :: p.1, p.2))
    else if c < 0x20 then none
    else (scanStringFrom StringState.inString rest).map (fun p => (c :: p.1, p.2))
  | StringState.inStringEsc, c :: rest =>
    if c = 0x62 ∨ c = 0x66 ∨ c = 0x6E ∨ c = 0x72 ∨ c = 0x74 ∨ c = 0x5C ∨ c = 0x2F
        ∨ c = 0x22 then
      (scanStringFrom StringState.inString rest).map (fun p => (c :: p.1, p.2))
    else if c = 0x75 then
      (scanStringFrom StringState.inStringEscU rest).map (fun p => (c :: p.1, p.2))
    else none
  | StringState.inStringEscU, c :: rest =>
    if isHex c then
      (scanStringFrom StringState.inStringEscU1 rest).map (fun p => (c :: p.1, p.2))
    else none
  | StringState.inStringEscU1, c :: rest =>
    if isHex c then
      (scanStringFrom StringState.inStringEscU12 rest).map (fun p => (c :: p.1, p.2))
    else none
  | StringState.inStringEscU12, c :: rest =>
    if isHex c then
      (scanStringFrom StringState.inStringEscU123 rest).map (fun p => (c :: p.1, p.2))
    else none
  | StringState.inStringEscU123, c :: rest =>
    if isHex c then
      (scanStringFrom StringState.inString rest).map (fun p => (c :: p.1, p.2))
    else none

/-- The scanner on a string literal, from the byte after the opening quote. -/
def scanString (s : GoString) : Option (GoString × GoString) :=
  scanStringFrom StringState.inString s

/-- Function `getu4` of the decoder: the value of a leading `\uXXXX`, if the
input starts with one. -/
def getu4 : GoString → Option Nat
  | b :: u :: h1 :: h2 :: h3 :: h4 :: _ =>
    if b = 0x5C ∧ u = 0x75 ∧ isHex h1 ∧ isHex h2 ∧ isHex h3 ∧ isHex h4 then
      some (hexVal h1 * 4096 + hexVal h2 * 256 + hexVal h3 * 16 + hexVal h4)
    else none
  | _ => none

/-- Function `utf16.DecodeRune` on a first half `r1` and what `getu4` found
next: the rune of a valid surrogate pair, otherwise U+FFFD. -/
def utf16DecodeRune (r1 : Nat) (r2 : Option Nat) : Nat :=
  match r2 with
  | some r2 =>
    if 0xD800 ≤ r1 ∧ r1 < 0xDC00 ∧ 0xDC00 ≤ r2 ∧ r2 < 0xE000 then
      (r1 - 0xD800) * 1024 + (r2 - 0xDC00) + 0x10000
    else RuneError
  | none => RuneError

/-- Function `unquoteBytes` of the decoder on the raw bytes between the quotes
of a literal: escapes are replaced and invalid UTF-8 is coerced to U+FFFD.  The
first argument bounds the number of iterations. -/
def unquoteLoop : Nat → GoString → Option GoString
  | 0, s => if s.isEmpty then some [] else none
  | _ + 1, [] => some []
  | fuel + 1, c :: rest =>
    if c = 0x5C then
      match rest with
      | [] => none
      | e :: rest1 =>
        if e = 0x22 ∨ e = 0x5C ∨ e = 0x2F ∨ e = 0x27 then
          (unquoteLoop fuel rest1).map (fun t => e :: t)
        else if e = 0x62 then (unquoteLoop fuel rest1).map (fun t => 0x08 :: t)
        else if e = 0x66 then (unquoteLoop fuel rest1).map (fun t => 0x0C :: t)
        else if e = 0x6E then (unquoteLoop fuel rest1).map (fun t => 0x0A :: t)
        else if e = 0x72 then (unquoteLoop fuel rest1).map (fun t => 0x0D :: t)
        else if e = 0x74 then (unquoteLoop fuel rest1).map (fun t => 0x09 :: t)
        else if e = 0x75 then
          match getu4 (c :: rest) with
          | none => none
          | some rr =>
            let after := rest.drop 5
            if 0xD800 ≤ rr ∧ rr < 0xE000 then
              let dec := utf16DecodeRune rr (getu4 after)
              if dec ≠ RuneError then
                (unquoteLoop fuel (after.drop 6)).map (fun t => appendRune dec ++ t)
              else (unquoteLoop fuel after).map (fun t => appendRune RuneError ++ t)
            else (unquoteLoop fuel after).map (fun t => appendRune rr ++ t)
        else none
    else if c = 0x22 ∨ c < 0x20 then none
    else if c < 0x80 then (unquoteLoop fuel rest).map (fun t => c :: t)
    else
      let d := decodeRune (c :: rest)
      (unquoteLoop fuel (rest.drop (d.2 - 1))).map (fun t => appendRune d.1 ++ t)

/-- Function `unquoteBytes` on the contents of a literal. -/
def unquote (raw : GoString) : Option GoString := unquoteLoop raw.length raw

/-- A run of decimal digits at the head of the input, and the rest. -/
def scanDigits : GoString → GoString × GoString
  | [] => ([], [])
  | c :: rest =>
    if 0x30 ≤ c ∧ c ≤ 0x39 then ((scanDigits rest).1.cons c, (scanDigits rest).2)
    else ([], c :: rest)

/-- The scanner on a number (states `stateNeg` to `stateE0`): an optional minus
sign, an integer part without leading zero, an optional fraction and an optional
exponent.  Returns the text of the number and the input after it. -/
def scanNumber (s : GoString) : Option (GoString × GoString) :=
  let (sign, s1) := match s with
    | c :: rest => if c = 0x2D then ([c], rest) else ([], c :: rest)
    | [] => ([], [])
  match s1 with
  | [] => none
  | c :: rest =>
    let intPart : Option (GoString × GoString) :=
      if c = 0x30 then some ([c], rest)
      else if 0x31 ≤ c ∧ c ≤ 0x39 then some ((scanDigits rest).1.cons c, (scanDigits rest).2)
      else none
    match intPart with
    | none => none
    | some (ip, s2) =>
      let frac : Option (GoString × GoString) :=
        match s2 with
        | d :: rest2 =>
          if d = 0x2E then
            if (scanDigits rest2).1.isEmpty then none
            else some ((scanDigits rest2).1.cons d, (scanDigits rest2).2)
          else some ([], s2)
        | [] => some ([], s2)
      match frac with
      | none => none
      | some (fp, s3) =>
        match s3 with
        | e :: rest3 =>
          if e = 0x65 ∨ e = 0x45 then
            let (esign, s4) := match rest3 with
              | g :: rest4 => if g = 0x2B ∨ g = 0x2D then ([g], rest4) else ([], g :: rest4)
              | [] => ([], [])
            if (scanDigits s4).1.isEmpty then none
            else some (sign ++ ip ++ fp ++ e :: esign ++ (scanDigits s4).1, (scanDigits s4).2)
          else some (sign ++ ip ++ fp, s3)
        | [] => some (sign ++ ip ++ fp, s3)

/-- The input after the given literal text, if the input starts with it. -/
def expectLit (lit : GoString) (s : GoString) : Option GoString :=
  if s.take lit.length = lit then some (s.drop lit.length) else none

mutual
/-- One JSON value at the head of the input (leading white space allowed) and the
input after it.  `depth` is the number of arrays and objects already open; the
first argument bounds the recursion. -/
def parseValue : Nat → Nat → GoString → Option (Json × GoString)
  | 0, _, _ => none
  | fuel + 1, depth, s =>
    match skipSpace s with
    | [] => none
    | c :: rest =>
      if c = 0x22 then
        match scanString rest with
        | none => none
        | some (raw, out) =>
          match unquote raw with
          | none => none
          | some t => some (Json.str t, out)
      else if c = 0x5B then
        if maxNestingDepth ≤ depth then none
        else
          match skipSpace rest with
          | [] => none
          | c1 :: rest1 =>
            if c1 = 0x5D then some (Json.arr [], rest1)
            else
              match parseValue fuel (depth + 1) (c1 :: rest1) with
              | none => none
              | some (v, out) =>
                match parseElems fuel (depth + 1) out with
                | none => none
                | some (vs, out1) => some (Json.arr (v :: vs), out1)
      else if c = 0x7B then
        if maxNestingDepth ≤ depth then none
        else
          match skipSpace rest with
          | [] => none
          | c1 :: rest1 =>
            if c1 = 0x7D then some (Json.obj [], rest1)
            else
              match parseMember fuel (depth + 1) (c1 :: rest1) with
              | none => none
              | some (kv, out) =>
                match parseMembers fuel (depth + 1) out with
                | none => none
                | some (kvs, out1) => some (Json.obj (kv :: kvs), out1)
      else if c = 0x74 then (expectLit [0x72, 0x75, 0x65] rest).map (fun out => (Json.bool true, out))
      else if c = 0x66 then
        (expectLit [0x61, 0x6C, 0x73, 0x65] rest).map (fun out => (Json.bool false, out))
      else if c = 0x6E then (expectLit [0x75, 0x6C, 0x6C] rest).map (fun out => (Json.null, out))
      else (scanNumber (c :: rest)).map (fun r => (Json.num r.1, r.2))
termination_by structural fuel => fuel
/-- The rest of an array after one of its values: a closing bracket, or a comma
and the next value. -/
def parseElems : Nat → Nat → GoString → Option (List Json × GoString)
  | 0, _, _ => none
  | fuel + 1, depth, s =>
    match skipSpace s with
    | [] => none
    | c :: rest =>
      if c = 0x5D then some ([], rest)
      else if c = 0x2C then
        match parseValue fuel depth rest with
        | none => none
        | some (v, out) =>
          match parseElems fuel depth out with
          | none => none
          | some (vs, out1) => some (v :: vs, out1)
      else none
termination_by structural fuel => fuel
/-- One member of an object: a string key, a colon and a value. -/
def parseMember : Nat → Nat → GoString → Option ((GoString × Json) × GoString)
  | 0, _, _ => none
  | fuel + 1, depth, s =>
    match skipSpace s with
    | [] => none
    | c :: rest =>
      if c = 0x22 then
        match scanString rest with
        | none => none
        | some (raw, out) =>
          match unquote raw with
          | none => none
          | some key =>
            match skipSpace out with
            | [] => none
            | c1 :: rest1 =>
              if c1 = 0x3A then
                match parseValue fuel depth rest1 with
                | none => none
                | some (v, out1) => some ((key, v), out1)
              else none
      else none
termination_by structural fuel => fuel
/-- The rest of an object after one of its members: a closing brace, or a comma
and the next member. -/
def parseMembers : Nat → Nat → GoString → Option (List (GoString × Json) × GoString)
  | 0, _, _ => none
  | fuel + 1, depth, s =>
    match skipSpace s with
    | [] => none
    | c :: rest =>
      if c = 0x7D then some ([], rest)
      else if c = 0x2C then
        match parseMember fuel depth rest with
        | none => none
        | some (kv, out) =>
          match parseMembers fuel depth out with
          | none => none
          | some (kvs, out1) => some (kv :: kvs, out1)
      else none
termination_by structural fuel => fuel
end

/-- The whole input as one JSON value, white space around it allowed (what
`checkValid` accepts); `none` for a syntax error. -/
def parseJson (data : GoString) : Option Json :=
  match parseValue (data.length + 1) 0 data with
  | none => none
  | some (v, out) => if (skipSpace out).isEmpty then some v else none

/-- The fold of one rune in `foldName`: the smallest rune of its case-folding
orbit.  Only the two non-ASCII runes whose orbit holds an ASCII letter are
folded here (U+017F to `S`, U+212A to `K`); the other non-ASCII runes fold among
themselves and cannot meet the ASCII field names of this program. -/
def foldRune (r : Nat) : Nat :=
  if r = 0x17F then 0x53 else if r = 0x212A then 0x4B else r

/-- The loop of `foldName` of the decoder: ASCII letters in upper case, other
runes folded.  The first argument bounds the number of iterations. -/
def foldNameLoop : Nat → GoString → GoString
  | 0, _ => []
  | _ + 1, [] => []
  | fuel + 1, c :: rest =>
    if c < 0x80 then
      (if 0x61 ≤ c ∧ c ≤ 0x7A then c - 0x20 else c) :: foldNameLoop fuel rest
    else
      let d := decodeRune (c :: rest)
      appendRune (foldRune d.1) ++ foldNameLoop fuel (rest.drop (d.2 - 1))

/-- Function `foldName` of the decoder. -/
def foldName (name : GoString) : GoString := foldNameLoop name.length name

/-- The struct field an object key selects: the field with exactly that name, or
else the first field with the same folded name. -/
def findField (names : List GoString) (key : GoString) : Option GoString :=
  if names.contains key then some key
  else names.find? (fun n => foldName n == foldName key)

/-- A JSON value stored into a Go `string`: a string replaces it, `null` leaves
it, anything else is a type error. -/
def decodeString (old : GoString) : Json → Option GoString
  | Json.null => some old
  | Json.str t => some t
  | _ => none

/-- One member of an object stored into a `Message`. -/
def decodeMessageField (old : Message) (kv : GoString × Json) : Option Message :=
  match findField [str "role", str "content"] kv.1 with
  | none => some old
  | some f =>
    if f = str "role" then (decodeString old.Role kv.2).map (fun t => { old with Role := t })
    else (decodeString old.Content kv.2).map (fun t => { old with Content := t })

/-- The members of an object stored into a `Message`, in order. -/
def decodeMessageFields (old : Message) : List (GoString × Json) → Option Message
  | [] => some old
  | kv :: kvs =>
    match decodeMessageField old kv with
    | none => none
    | some m => decodeMessageFields m kvs

/-- A JSON value stored into a `Message`: an object sets the fields it names,
`null` leaves the value, anything else is a type error. -/
def decodeMessage (old : Message) : Json → Option Message
  | Json.null => some old
  | Json.obj members => decodeMessageFields old members
  | _ => none

/-- The elements of a JSON array stored into fresh elements of a `[]Message`. -/
def decodeMessageElems : List Json → Option (List Message)
  | [] => some []
  | v :: vs =>
    match decodeMessage { Role := [], Content := [] } v with
    | none => none
    | some m => (decodeMessageElems vs).map (fun ms => m :: ms)

/-- A JSON value stored into a nil `[]Message`. -/
def decodeMessages : Json → Option (List Message)
  | Json.null => some []
  | Json.arr elems => decodeMessageElems elems
  | _ => none

/-- Function `json.Unmarshal(data, &messages)` for a nil `messages []Message`;
`none` for an error. -/
def unmarshalMessages (data : GoString) : Option (List Message) :=
  match parseJson data with
  | none => none
  | some v => decodeMessages v

/-- The JSON value of a `Message` as the struct encoder writes it. -/
def messageJson (m : Message) : Json :=
  Json.obj [(str "role", Json.str m.Role), (str "content", Json.str m.Content)]

/-- The members of an object stored into an element of `Response.Choices`. -/
def decodeChoiceFields (old : Choice) : List (GoString × Json) → Option Choice
  | [] => some old
  | kv :: kvs =>
    match findField [str "message"] kv.1 with
    | none => decodeChoiceFields old kvs
    | some _ =>
      match decodeMessage old.Message kv.2 with
      | none => none
      | some m => decodeChoiceFields { Message := m } kvs

/-- A JSON value stored into an element of `Response.Choices`. -/
def decodeChoice (old : Choice) : Json → Option Choice
  | Json.null => some old
  | Json.obj members => decodeChoiceFields old members
  | _ => none

/-- The elements of a JSON array stored into a slice of `Response.Choices`
elements: the element at each index is decoded over the element the backing
array already holds there (`backing`, in order), or over a zero element beyond
it. -/
def decodeChoiceElems (backing : List Choice) : List Json → Option (List Choice)
  | [] => some []
  | v :: vs =>
    match decodeChoice (backing.headD { Message := { Role := [], Content := [] } }) v with
    | none => none
    | some c => (decodeChoiceElems backing.tail vs).map (fun cs => c :: cs)

/-- A JSON value stored into the field `Choices`, a slice given by its elements
`old` and by `spare`, the elements its backing array holds beyond its length
(left there when the slice was cut).  `null` makes the slice nil; an array is
decoded element by element over the backing array and the slice is cut to the
number of elements read, an empty array giving a fresh empty slice.  Returns the
new elements and the new spare elements. -/
def decodeChoices (old spare : List Choice) : Json → Option (List Choice × List Choice)
  | Json.null => some ([], [])
  | Json.arr elems =>
    match decodeChoiceElems (old ++ spare) elems with
    | none => none
    | some cs =>
      if cs.isEmpty then some ([], [])
      else some (cs, (old ++ spare).drop cs.length)
  | _ => none

/-- The members of an object stored into a `Response` whose slice has the given
spare elements. -/
def decodeResponseFields (old : Response) (spare : List Choice) :
    List (GoString × Json) → Option Response
  | [] => some old
  | kv :: kvs =>
    match findField [str "choices"] kv.1 with
    | none => decodeResponseFields old spare kvs
    | some _ =>
      match decodeChoices old.Choices spare kv.2 with
      | none => none
      | some (cs, spare1) => decodeResponseFields { Choices := cs } spare1 kvs

/-- A JSON value stored into a `Response`. -/
def decodeResponse (old : Response) : Json → Option Response
  | Json.null => some old
  | Json.obj members => decodeResponseFields old [] members
  | _ => none

/-- Function `json.Unmarshal(body, &response)` for a zero `response Response`.
The text of the library's error is not modelled. -/
def unmarshalResponse (body : GoString) : Except GoString Response :=
  match parseJson body with
  | none => .error (str "json: syntax error")
  | some v =>
    match decodeResponse { Choices := [] } v with
    | none => .error (str "json: cannot unmarshal")
    | some r => .ok r

/-- The elements of a JSON array stored into a slice of `Message`, each over the
element the backing array already holds at its index, or over a zero element
beyond it. -/
def decodeMessageElemsOver (backing : List Message) : List Json → Option (List Message)
  | [] => some []
  | v :: vs =>
    match decodeMessage (backing.headD { Role := [], Content := [] }) v with
    | none => none
    | some m => (decodeMessageElemsOver backing.tail vs).map (fun ms => m :: ms)

/-- A JSON value stored into the field `Messages`, a slice given by its elements
and the spare elements of its backing array (as `decodeChoices`). -/
def decodeMessagesOver (old spare : List Message) : Json → Option (List Message × List Message)
  | Json.null => some ([], [])
  | Json.arr elems =>
    match decodeMessageElemsOver (old ++ spare) elems with
    | none => none
    | some ms =>
      if ms.isEmpty then some ([], [])
      else some (ms, (old ++ spare).drop ms.length)
  | _ => none

/-- The members of an object stored into a `Request` whose slice has the given
spare elements. -/
def decodeRequestFields (old : Request) (spare : List Message) :
    List (GoString × Json) → Option Request
  | [] => some old
  | kv :: kvs =>
    match findField [str "model", str "messages"] kv.1 with
    | none => decodeRequestFields old spare kvs
    | some f =>
      if f = str "model" then
        match decodeString old.Model kv.2 with
        | none => none
        | some t => decodeRequestFields { old with Model := t } spare kvs
      else
        match decodeMessagesOver old.Messages spare kv.2 with
        | none => none
        | some (ms, spare1) => decodeRequestFields { old with Messages := ms } spare1 kvs

/-- A JSON value stored into a `Request`. -/
def decodeRequest (old : Request) : Json → Option Request
  | Json.null => some old
  | Json.obj members => decodeRequestFields old [] members
  | _ => none

/-- Function `json.Unmarshal(data, &request)` for a zero `request Request`: what a
reader of the wire format finds in a request body; `none` for an error. -/
def unmarshalRequest (data : GoString) : Option Request :=
  match parseJson data with
  | none => none
  | some v => decodeRequest { Model := [], Messages := [] } v

/-- The JSON value of a `Request` as the struct encoder writes it. -/
def requestJson (r : Request) : Json :=
  Json.obj [(str "model", Json.str r.Model),
    (str "messages", Json.arr (r.Messages.map messageJson))]

/-! ## The program: `sendRequest` and `main` -/

/-- What `sendRequest` hands to `client.Do`: the request of
`http.NewRequest("POST", apiURL, ...)` on the serialised payload, with the two
headers set (`http.NewRequest` cannot fail on this method and URL). -/
def newRequest (apiKey : GoString) (jsonData : GoString) : HttpRequest :=
  { Method := str "POST"
    URL := apiURL
    Header := [(str "Content-Type", str "application/json"),
               (str "Authorization", str "Bearer " ++ apiKey)]
    Body := jsonData }

/-- The message of the error `sendRequest` builds with `fmt.Errorf` for a status
code other than `http.StatusOK`. -/
def statusError (code : Int) (body : GoString) : GoString :=
  str "API request failed with status code " ++ fmtInt code ++ str ": " ++ body

/-- Function `sendRequest`.  `sent` is the list of requests the process has handed
to `client.Do` so far; the function returns its result (the response or the
error) together with the extended list.  `json.Marshal` cannot fail on a
`Request`, so its error branch does not appear. -/
def sendRequest (rt : Runtime) (sent : List HttpRequest) (apiKey : GoString)
    (messages : List Message) (model : GoString) :
    Except GoString Response × List HttpRequest :=
  let requestBody : Request := { Model := model, Messages := messages }
  let jsonData := marshalRequest requestBody
  let req := newRequest apiKey jsonData
  let sent1 := sent ++ [req]
  match rt.Do sent.length req with
  | .error err => (.error err, sent1)
  | .ok resp =>
    match resp.Body with
    | .error err => (.error err, sent1)
    | .ok body =>
      if resp.StatusCode ≠ StatusOK then
        (.error (statusError resp.StatusCode body), sent1)
      else
        match rt.Unmarshal body with
        | .error err => (.error err, sent1)
        | .ok response => (.ok response, sent1)

/-- The state of a session: the variable `messages` of `main`, the requests sent
so far, and what has been written to standard output. -/
structure Session where
  messages : List Message
  sent : List HttpRequest
  stdout : GoString

/-- The sentinel line that ends the session. -/
def exitChat : GoString := str "exit_chat"

/-- The message `main` appends for an input line. -/
def userMessage (userInput : GoString) : Message :=
  { Role := str "user", Content := userInput }

/-- The prompt written at the top of every iteration of the loop of `main`. -/
def prompt (s : Session) : Session :=
  { s with stdout := s.stdout ++ str "You: " }

/-- One iteration of the loop of `main` from the append of the user message on
(the input line has been read and is not the sentinel). -/
def turn (rt : Runtime) (apiKey model : GoString) (s : Session) (userInput : GoString) :
    Session :=
  let messages := s.messages ++ [{ Role := str "user", Content := userInput }]
  match sendRequest rt s.sent apiKey messages model with
  | (.error err, sent) =>
    { messages := messages, sent := sent
      stdout := s.stdout ++ str "Error: " ++ err ++ str "\n" }
  | (.ok response, sent) =>
    match response.Choices with
    | choice :: _ =>
      let assistantMessage := choice.Message
      { messages := messages ++ [assistantMessage], sent := sent
        stdout := s.stdout ++ str "Assistant: " ++ assistantMessage.Content ++ str "\n" }
    | [] =>
      { messages := messages, sent := sent
        stdout := s.stdout ++ str "No response from the assistant.\n" }

/-- The loop of `main` on the lines that `scanner.Scan` still yields from standard
input: it stops when there is no further line or at the sentinel line. -/
def loop (rt : Runtime) (apiKey model : GoString) : Session → List GoString → Session
  | s, [] => prompt s
  | s, userInput :: rest =>
    if userInput = exitChat then prompt s
    else loop rt apiKey model (turn rt apiKey model (prompt s) userInput) rest

/-- The model identifier `main` uses: the variable `MODEL`, or the default. -/
def chosenModel (getenv : GoString → GoString) : GoString :=
  if getenv (str "MODEL") = [] then str "llama-3.1-70b-versatile" else getenv (str "MODEL")

/-- What `main` has written when the loop starts. -/
def banner (getenv : GoString → GoString) : GoString :=
  (if getenv (str "MODEL") = [] then
      str "No MODEL variable set. Defaulting to llama-3.1-70b-versatile\n"
    else [])
    ++ str "Chat with your chosen LLM through GroqCloud!\n"
    ++ str "Type 'exit_chat' to quit the chat.\n"

/-- The session state with which the loop of `main` starts. -/
def initial (getenv : GoString → GoString) : Session :=
  { messages := [], sent := [], stdout := banner getenv }

/-- Function `main`: the final state of the process for an environment, a remote
service and the lines of standard input. -/
def main (getenv : GoString → GoString) (rt : Runtime) (stdin : List GoString) : Session :=
  let apiKey := getenv (str "API_KEY")
  if apiKey = [] then
    { messages := [], sent := []
      stdout := str ("Please set the API_KEY environment variable to your Groq API key, "
        ++ "from here: https://console.groq.com/keys.\n") ++ str "Exiting program...\n" }
  else
    let s := loop rt apiKey (chosenModel getenv) (initial getenv) stdin
    { s with stdout := s.stdout ++ str "Goodbye!\n" }

/-- The state after the turns of the given lines, none of which is the sentinel
(an auxiliary of the proofs: the loop of `main` without its last prompt). -/
def turns (rt : Runtime) (apiKey model : GoString) (s : Session) (lines : List GoString) :
    Session :=
  lines.foldl (fun s l => turn rt apiKey model (prompt s) l) s

/-- A remote service, for the examples: every call is answered with the given
status code and body, and bodies are decoded by `unmarshalResponse`. -/
def remoteAnswering (code : Int) (body : GoString) : Runtime :=
  { Do := fun _ _ => .ok { StatusCode := code, Body := .ok body }
    Unmarshal := unmarshalResponse }

/-- A remote service, for the examples: every call fails in the transport. -/
def remoteUnreachable : Runtime :=
  { Do := fun _ _ => .error (str "dial tcp: connection refused")
    Unmarshal := unmarshalResponse }

/-- An environment, for the examples: `API_KEY` is set, `MODEL` is not. -/
def exampleEnv (name : GoString) : GoString :=
  if name = str "API_KEY" then str "secret" else []

/-- The response body of the example of the specification: one choice, an
assistant message "hello". -/
def helloBody : GoString :=
  str "\x7b\"choices\":[\x7b\"message\":\x7b\"role\":\"assistant\",\"content\":\"hello\"\x7d\x7d]\x7d"

/-- A response body with an empty list of choices. -/
def noChoicesBody : GoString := str "\x7b\"choices\": []\x7d"

/-- A response body whose first choice carries the role `system`. -/
def systemBody : GoString :=
  str "\x7b\"choices\":[\x7b\"message\":\x7b\"role\":\"system\",\"content\":\"x\"\x7d\x7d]\x7d"

/-- A response body whose first choice carries the role `tool`. -/
def toolBody : GoString :=
  str "\x7b\"choices\":[\x7b\"message\":\x7b\"role\":\"tool\",\"content\":\"42\"\x7d\x7d]\x7d"

/-! ## Properties of `sendRequest` and of one turn -/

/-- The request `sendRequest` builds for a transcript and a model. -/
theorem sendRequest_sent (rt : Runtime) (sent : List HttpRequest) (apiKey : GoString)
    (messages : List Message) (model : GoString) :
    (sendRequest rt sent apiKey messages model).2
      = sent ++ [newRequest apiKey (marshalRequest { Model := model, Messages := messages })] := by
  unfold sendRequest
  simp only
  split
  · rfl
  · split
    · rfl
    · split
      · rfl
      · split <;> rfl

/-- A transport error is returned as it is. -/
theorem sendRequest_transport_error (rt : Runtime) (sent : List HttpRequest)
    (apiKey : GoString) (messages : List Message) (model : GoString) (e : GoString)
    (hdo : rt.Do sent.length
      (newRequest apiKey (marshalRequest { Model := model, Messages := messages })) = .error e) :
    (sendRequest rt sent apiKey messages model).1 = .error e := by
  unfold sendRequest
  simp only [hdo]

/-- The result of `sendRequest` once the body of the response has been read. -/
theorem sendRequest_of_response (rt : Runtime) (sent : List HttpRequest)
    (apiKey : GoString) (messages : List Message) (model : GoString) (c : Int) (b : GoString)
    (hdo : rt.Do sent.length
      (newRequest apiKey (marshalRequest { Model := model, Messages := messages }))
        = .ok { StatusCode := c, Body := .ok b }) :
    (sendRequest rt sent apiKey messages model).1
      = if c ≠ StatusOK then .error (statusError c b) else rt.Unmarshal b := by
  unfold sendRequest
  simp only [hdo]
  split
  · rfl
  · cases h : rt.Unmarshal b <;> rfl

/-- The transcript after a turn, by the result of `sendRequest`. -/
theorem turn_messages (rt : Runtime) (apiKey model : GoString) (s : Session)
    (userInput : GoString) :
    (turn rt apiKey model s userInput).messages
      = match (sendRequest rt s.sent apiKey (s.messages ++ [userMessage userInput]) model).1 with
        | .error _ => s.messages ++ [userMessage userInput]
        | .ok response =>
          s.messages ++ [userMessage userInput] ++ (response.Choices.take 1).map (fun c => c.Message) := by
  unfold turn userMessage
  simp only
  split
  · rename_i err sent h
    simp [h]
  · rename_i response sent h
    simp only [h]
    cases hc : response.Choices <;> simp

/-- The requests sent after a turn: one more than before. -/
theorem turn_sent (rt : Runtime) (apiKey model : GoString) (s : Session)
    (userInput : GoString) :
    (turn rt apiKey model s userInput).sent
      = s.sent ++ [newRequest apiKey (marshalRequest
          { Model := model, Messages := s.messages ++ [userMessage userInput] })] := by
  have h := sendRequest_sent rt s.sent apiKey (s.messages ++ [userMessage userInput]) model
  unfold turn
  unfold userMessage at h
  simp only
  split
  · rename_i err sent hs
    rw [hs] at h
    exact h
  · rename_i response sent hs
    rw [hs] at h
    cases hc : response.Choices <;> exact h

/-! ## The loop -/

theorem turns_append (rt : Runtime) (apiKey model : GoString) (s : Session)
    (xs ys : List GoString) :
    turns rt apiKey model s (xs ++ ys)
      = turns rt apiKey model (turns rt apiKey model s xs) ys := by
  simp [turns, List.foldl_append]

theorem turns_snoc (rt : Runtime) (apiKey model : GoString) (s : Session)
    (xs : List GoString) (l : GoString) :
    turns rt apiKey model s (xs ++ [l])
      = turn rt apiKey model (prompt (turns rt apiKey model s xs)) l := by
  simp [turns, List.foldl_append]

/-- The loop runs the turns of the lines before the first sentinel. -/
theorem loop_append (rt : Runtime) (apiKey model : GoString) (pre post : List GoString)
    (hpre : ∀ l ∈ pre, l ≠ exitChat) (s : Session) :
    loop rt apiKey model s (pre ++ post)
      = loop rt apiKey model (turns rt apiKey model s pre) post := by
  induction pre generalizing s with
  | nil => rfl
  | cons l ls ih =>
    have hl : l ≠ exitChat := hpre l (List.mem_cons_self _ _)
    have hls : ∀ x ∈ ls, x ≠ exitChat := fun x hx => hpre x (List.mem_cons_of_mem _ hx)
    have h1 : loop rt apiKey model s ((l :: ls) ++ post)
        = loop rt apiKey model (turn rt apiKey model (prompt s) l) (ls ++ post) := by
      show loop rt apiKey model s (l :: (ls ++ post)) = _
      rw [loop, if_neg hl]
    rw [h1, ih hls]
    rfl

theorem loop_eq_turns (rt : Runtime) (apiKey model : GoString) (lines : List GoString)
    (hl : ∀ l ∈ lines, l ≠ exitChat) (s : Session) :
    loop rt apiKey model s lines = prompt (turns rt apiKey model s lines) := by
  have h := loop_append rt apiKey model lines [] hl s
  rw [List.append_nil] at h
  rw [h]
  rfl

/-- A turn keeps the transcript it starts from as a prefix. -/
theorem turn_keeps_transcript (rt : Runtime) (apiKey model : GoString) (s : Session)
    (userInput : GoString) :
    s.messages <+: (turn rt apiKey model s userInput).messages := by
  rw [turn_messages]
  split
  · exact List.prefix_append _ _
  · rw [List.append_assoc]
    exact List.prefix_append _ _

/-- The loop keeps the transcript it starts from as a prefix. -/
theorem loop_keeps_transcript (rt : Runtime) (apiKey model : GoString) (lines : List GoString)
    (s : Session) :
    s.messages <+: (loop rt apiKey model s lines).messages := by
  induction lines generalizing s with
  | nil => exact List.prefix_refl _
  | cons l ls ih =>
    unfold loop
    split
    · exact List.prefix_refl _
    · exact List.IsPrefix.trans (turn_keeps_transcript rt apiKey model (prompt s) l) (ih _)

/-- The loop keeps the requests already sent as a prefix. -/
theorem loop_keeps_sent (rt : Runtime) (apiKey model : GoString) (lines : List GoString)
    (s : Session) :
    s.sent <+: (loop rt apiKey model s lines).sent := by
  induction lines generalizing s with
  | nil => exact List.prefix_refl _
  | cons l ls ih =>
    unfold loop
    split
    · exact List.prefix_refl _
    · refine List.IsPrefix.trans ?_ (ih _)
      rw [turn_sent]
      exact List.prefix_append _ _

/-- Each turn sends exactly one request. -/
theorem turns_sent_length (rt : Runtime) (apiKey model : GoString) (lines : List GoString)
    (s : Session) :
    (turns rt apiKey model s lines).sent.length = s.sent.length + lines.length := by
  induction lines using List.reverseRecOn with
  | nil => rfl
  | append_singleton xs l ih =>
    rw [turns_snoc, turn_sent]
    simp only [List.length_append, List.length_singleton]
    have : (prompt (turns rt apiKey model s xs)).sent = (turns rt apiKey model s xs).sent := rfl
    rw [this, ih]
    omega

theorem main_eq_loop (getenv : GoString → GoString) (rt : Runtime) (stdin : List GoString)
    (hkey : getenv (str "API_KEY") ≠ []) :
    (main getenv rt stdin).messages
        = (loop rt (getenv (str "API_KEY")) (chosenModel getenv) (initial getenv) stdin).messages
      ∧ (main getenv rt stdin).sent
        = (loop rt (getenv (str "API_KEY")) (chosenModel getenv) (initial getenv) stdin).sent := by
  unfold main
  simp only [hkey, if_false]
  trivial

theorem main_state_of_turns (getenv : GoString → GoString) (rt : Runtime)
    (lines : List GoString) (hkey : getenv (str "API_KEY") ≠ [])
    (hl : ∀ l ∈ lines, l ≠ exitChat) :
    (main getenv rt lines).messages
        = (turns rt (getenv (str "API_KEY")) (chosenModel getenv) (initial getenv) lines).messages
      ∧ (main getenv rt lines).sent
        = (turns rt (getenv (str "API_KEY")) (chosenModel getenv) (initial getenv) lines).sent := by
  obtain ⟨h1, h2⟩ := main_eq_loop getenv rt lines hkey
  rw [h1, h2, loop_eq_turns rt _ _ lines hl]
  exact ⟨rfl, rfl⟩

theorem turns_take_succ (rt : Runtime) (apiKey model : GoString) (s : Session)
    (lines : List GoString) (j : Nat) (h : j < lines.length) :
    turns rt apiKey model s (lines.take (j + 1))
      = turn rt apiKey model (prompt (turns rt apiKey model s (lines.take j)))
          (lines.get ⟨j, h⟩) := by
  have e : lines.take (j + 1) = lines.take j ++ [lines.get ⟨j, h⟩] := by
    rw [List.take_succ, List.getElem?_eq_getElem h]
    rfl
  rw [e, turns_snoc]

/-- The transcript after `j` turns that all succeeded with at least one choice. -/
theorem turns_successful (rt : Runtime) (apiKey model : GoString) (s : Session)
    (lines : List GoString) (rs : Nat → Response) (hs : s.messages = [])
    (hok : ∀ i (h : i < lines.length),
      (sendRequest rt (turns rt apiKey model s (lines.take i)).sent apiKey
          ((turns rt apiKey model s (lines.take i)).messages ++ [userMessage (lines.get ⟨i, h⟩)])
          model).1 = .ok (rs i)
        ∧ (rs i).Choices ≠ [])
    (j : Nat) (hj : j ≤ lines.length) :
    (turns rt apiKey model s (lines.take j)).messages.length = 2 * j
      ∧ ∀ i (h : i < lines.length), i < j →
        (turns rt apiKey model s (lines.take j)).messages[2 * i]?
            = some { Role := str "user", Content := lines.get ⟨i, h⟩ }
          ∧ (turns rt apiKey model s (lines.take j)).messages[2 * i + 1]?
            = (rs i).Choices.head?.map (fun c => c.Message) := by
  induction j with
  | zero =>
    refine ⟨?_, fun i _ hi => absurd hi (Nat.not_lt_zero i)⟩
    simp [turns, hs]
  | succ j ih =>
    have hjl : j < lines.length := hj
    obtain ⟨hlen, hget⟩ := ih (Nat.le_of_lt hjl)
    obtain ⟨hres, hne⟩ := hok j hjl
    have hmsg : (turns rt apiKey model s (lines.take (j + 1))).messages
        = (turns rt apiKey model s (lines.take j)).messages
            ++ [userMessage (lines.get ⟨j, hjl⟩)]
            ++ ((rs j).Choices.take 1).map (fun c => c.Message) := by
      rw [turns_take_succ rt apiKey model s lines j hjl, turn_messages]
      have hp : (prompt (turns rt apiKey model s (lines.take j))).sent
          = (turns rt apiKey model s (lines.take j)).sent := rfl
      have hq : (prompt (turns rt apiKey model s (lines.take j))).messages
          = (turns rt apiKey model s (lines.take j)).messages := rfl
      rw [hp, hq, hres]
    obtain ⟨c, cs, hc⟩ : ∃ c cs, (rs j).Choices = c :: cs := by
      cases hch : (rs j).Choices with
      | nil => exact absurd hch hne
      | cons c cs => exact ⟨c, cs, rfl⟩
    rw [hmsg, hc]
    simp only [List.take_succ_cons, List.take_zero, List.map_cons, List.map_nil,
      List.append_assoc, List.singleton_append, List.length_append, List.length_cons,
      List.length_nil]
    refine ⟨by omega, ?_⟩
    intro i hi hij
    by_cases hlt : i < j
    · obtain ⟨h0, h1⟩ := hget i hi hlt
      rw [List.getElem?_append_left (by omega), List.getElem?_append_left (by omega)]
      exact ⟨h0, h1⟩
    · have hij' : i = j := by omega
      subst hij'
      rw [List.getElem?_append_right (by omega), List.getElem?_append_right (by omega)]
      have e0 : 2 * i - (turns rt apiKey model s (lines.take i)).messages.length = 0 := by omega
      have e1 : 2 * i + 1 - (turns rt apiKey model s (lines.take i)).messages.length = 1 := by
        omega
      rw [e0, e1, hc]
      exact ⟨rfl, rfl⟩

/-! ## The claims about the session -/

/-- C1, as the claim states it, fails: a turn whose `sendRequest` call succeeds
with one choice of role `system` leaves a transcript of two messages whose second
message has the role `system`, so the transcript is not in user/assistant
order. -/
theorem successful_turn_with_system_reply :
    str "hi" ≠ exitChat
      ∧ (sendRequest (remoteAnswering 200 systemBody) [] (exampleEnv (str "API_KEY"))
          ([] ++ [userMessage (str "hi")]) (chosenModel exampleEnv)).1
        = .ok { Choices := [{ Message := { Role := str "system", Content := str "x" } }] }
      ∧ (main exampleEnv (remoteAnswering 200 systemBody) [str "hi"]).messages
        = [{ Role := str "user", Content := str "hi" },
           { Role := str "system", Content := str "x" }]
      ∧ str "system" ≠ str "assistant" := by
  refine ⟨by decide, by rfl, by rfl, by decide⟩

/-- C1, amended: for every list of input lines without the sentinel, if the
`sendRequest` call of every turn succeeds with at least one choice (`rs i` being
the response of turn `i`), then `main`, started with a credential, ends with a
transcript of exactly `2 * N` messages; message `2 * i` is the user message of
line `i` and message `2 * i + 1` is the message of the first choice of response
`i` exactly as received: its content is the literal content of that choice and
its role is the role the response carries. -/
theorem main_successful_turns (getenv : GoString → GoString) (rt : Runtime)
    (lines : List GoString) (rs : Nat → Response)
    (hkey : getenv (str "API_KEY") ≠ [])
    (hlines : ∀ l ∈ lines, l ≠ exitChat)
    (hok : ∀ i (h : i < lines.length),
      (sendRequest rt (main getenv rt (lines.take i)).sent (getenv (str "API_KEY"))
          ((main getenv rt (lines.take i)).messages ++ [userMessage (lines.get ⟨i, h⟩)])
          (chosenModel getenv)).1 = .ok (rs i)
        ∧ (rs i).Choices ≠ []) :
    (main getenv rt lines).messages.length = 2 * lines.length
      ∧ ∀ i (h : i < lines.length),
        (main getenv rt lines).messages[2 * i]?
            = some { Role := str "user", Content := lines.get ⟨i, h⟩ }
          ∧ (main getenv rt lines).messages[2 * i + 1]?
            = (rs i).Choices.head?.map (fun c => c.Message) := by
  have htake : ∀ i, ∀ l ∈ lines.take i, l ≠ exitChat :=
    fun i l hl => hlines l (List.mem_of_mem_take hl)
  have hok' : ∀ i (h : i < lines.length),
      (sendRequest rt
          (turns rt (getenv (str "API_KEY")) (chosenModel getenv) (initial getenv)
            (lines.take i)).sent (getenv (str "API_KEY"))
          ((turns rt (getenv (str "API_KEY")) (chosenModel getenv) (initial getenv)
            (lines.take i)).messages ++ [userMessage (lines.get ⟨i, h⟩)])
          (chosenModel getenv)).1 = .ok (rs i)
        ∧ (rs i).Choices ≠ [] := by
    intro i h
    obtain ⟨h1, h2⟩ := main_state_of_turns getenv rt (lines.take i) hkey (htake i)
    rw [← h1, ← h2]
    exact hok i h
  have key := turns_successful rt (getenv (str "API_KEY")) (chosenModel getenv)
    (initial getenv) lines rs rfl hok' lines.length (Nat.le_refl _)
  rw [List.take_length] at key
  obtain ⟨h1, _⟩ := main_state_of_turns getenv rt lines hkey hlines
  rw [h1]
  exact ⟨key.1, fun i h => key.2 i h h⟩

theorem main_successful_turns_witness :
    (main exampleEnv (remoteAnswering 200 helloBody) [str "hi", str "again"]).messages.length
        = 2 * 2
      ∧ (main exampleEnv (remoteAnswering 200 helloBody) [str "hi", str "again"]).messages[2]?
        = some { Role := str "user", Content := str "again" }
      ∧ (main exampleEnv (remoteAnswering 200 helloBody) [str "hi", str "again"]).messages[3]?
        = some { Role := str "assistant", Content := str "hello" } := by
  have h := main_successful_turns exampleEnv (remoteAnswering 200 helloBody)
    [str "hi", str "again"]
    (fun _ => { Choices := [{ Message := { Role := str "assistant", Content := str "hello" } }] })
    (by decide) (by decide)
    (by
      intro i hi
      have hi2 : i < 2 := hi
      interval_cases i
      · exact ⟨by rfl, by decide⟩
      · exact ⟨by rfl, by decide⟩)
  exact ⟨h.1, (h.2 1 (by decide)).1, (h.2 1 (by decide)).2⟩

/-- C2: when the remote service answers with status 200 and a body that decodes
to a response with at least one choice, `sendRequest` returns that response
without error and the turn appends exactly the message of the first choice (role
and content as received) after the user message, whatever the other choices
are. -/
theorem turn_appends_first_choice (rt : Runtime) (apiKey model : GoString) (s : Session)
    (userInput body : GoString) (r : Response) (c : Choice) (cs : List Choice)
    (hdo : rt.Do s.sent.length (newRequest apiKey (marshalRequest
        { Model := model, Messages := s.messages ++ [userMessage userInput] }))
      = .ok { StatusCode := 200, Body := .ok body })
    (hdec : rt.Unmarshal body = .ok r)
    (hch : r.Choices = c :: cs) :
    (sendRequest rt s.sent apiKey (s.messages ++ [userMessage userInput]) model).1 = .ok r
      ∧ (turn rt apiKey model s userInput).messages
        = s.messages ++ [userMessage userInput, c.Message] := by
  have hres : (sendRequest rt s.sent apiKey (s.messages ++ [userMessage userInput]) model).1
      = .ok r := by
    rw [sendRequest_of_response rt s.sent apiKey _ model 200 body hdo, ← hdec]
    simp [StatusOK]
  refine ⟨hres, ?_⟩
  rw [turn_messages, hres]
  simp [hch]

theorem turn_appends_first_choice_witness :
    unmarshalResponse helloBody
        = .ok { Choices := [{ Message := { Role := str "assistant", Content := str "hello" } }] }
      ∧ (sendRequest (remoteAnswering 200 helloBody) [] (str "secret")
          ([] ++ [userMessage (str "hi")]) (str "m")).1
        = .ok { Choices := [{ Message := { Role := str "assistant", Content := str "hello" } }] }
      ∧ (turn (remoteAnswering 200 helloBody) (str "secret") (str "m")
          { messages := [], sent := [], stdout := [] } (str "hi")).messages
        = [] ++ [userMessage (str "hi"), { Role := str "assistant", Content := str "hello" }] :=
  ⟨by rfl,
   turn_appends_first_choice (remoteAnswering 200 helloBody) (str "secret") (str "m")
    { messages := [], sent := [], stdout := [] } (str "hi") helloBody
    { Choices := [{ Message := { Role := str "assistant", Content := str "hello" } }] }
    { Message := { Role := str "assistant", Content := str "hello" } } []
    (by rfl) (by rfl) (by rfl)⟩

/-- C3: when the remote service answers with a status code `c` other than 200
and a body `b` (whatever the body is, a well-formed choices object included),
`sendRequest` returns an error and no response, and the message of the error
contains the decimal digits of `c` and the text `b`. -/
theorem sendRequest_status_error (rt : Runtime) (sent : List HttpRequest)
    (apiKey : GoString) (messages : List Message) (model : GoString) (c : Int) (b : GoString)
    (hdo : rt.Do sent.length
      (newRequest apiKey (marshalRequest { Model := model, Messages := messages }))
        = .ok { StatusCode := c, Body := .ok b })
    (hc : c ≠ StatusOK) :
    ∃ e, (sendRequest rt sent apiKey messages model).1 = .error e
      ∧ fmtInt c <:+: e ∧ b <:+: e := by
  refine ⟨statusError c b, ?_, ?_, ?_⟩
  · rw [sendRequest_of_response rt sent apiKey messages model c b hdo, if_pos hc]
  · exact ⟨str "API request failed with status code ", str ": " ++ b, by
      simp [statusError, List.append_assoc]⟩
  · exact ⟨str "API request failed with status code " ++ fmtInt c ++ str ": ", [], by
      simp [statusError, List.append_assoc]⟩

theorem sendRequest_status_error_witness :
    (401 : Int) ≠ StatusOK
      ∧ ∃ e, (sendRequest (remoteAnswering 401 (str "invalid api key")) [] (str "secret")
            [userMessage (str "hi")] (str "m")).1 = .error e
          ∧ str "401" <:+: e ∧ str "invalid api key" <:+: e :=
  ⟨by decide,
   sendRequest_status_error (remoteAnswering 401 (str "invalid api key")) [] (str "secret")
    [userMessage (str "hi")] (str "m") 401 (str "invalid api key") (by rfl) (by decide)⟩

/-- C4: on a turn (input line not the sentinel) whose `sendRequest` call returns
an error, the loop goes on with the remaining lines from the state whose
transcript is the transcript before the turn followed by the one user message;
the error is printed and one request has been sent. -/
theorem loop_continues_after_error (rt : Runtime) (apiKey model : GoString) (s : Session)
    (userInput : GoString) (rest : List GoString) (e : GoString)
    (hline : userInput ≠ exitChat)
    (herr : (sendRequest rt s.sent apiKey (s.messages ++ [userMessage userInput]) model).1
      = .error e) :
    loop rt apiKey model s (userInput :: rest)
      = loop rt apiKey model
          { messages := s.messages ++ [userMessage userInput]
            sent := s.sent ++ [newRequest apiKey (marshalRequest
              { Model := model, Messages := s.messages ++ [userMessage userInput] })]
            stdout := s.stdout ++ str "You: " ++ str "Error: " ++ e ++ str "\n" } rest := by
  rw [loop, if_neg hline]
  congr 1
  have hsent := sendRequest_sent rt s.sent apiKey (s.messages ++ [userMessage userInput]) model
  unfold turn
  unfold userMessage at herr hsent ⊢
  simp only [prompt]
  split
  · rename_i err sent hs
    rw [hs] at herr hsent
    simp only at herr hsent
    cases herr
    rw [hsent]
  · rename_i response sent hs
    rw [hs] at herr
    cases herr

theorem loop_continues_after_error_witness :
    str "hi" ≠ exitChat
      ∧ loop remoteUnreachable (str "secret") (str "m")
          { messages := [], sent := [], stdout := [] } (str "hi" :: [str "again"])
        = loop remoteUnreachable (str "secret") (str "m")
          { messages := [] ++ [userMessage (str "hi")]
            sent := [] ++ [newRequest (str "secret") (marshalRequest
              { Model := str "m", Messages := [] ++ [userMessage (str "hi")] })]
            stdout := [] ++ str "You: " ++ str "Error: "
              ++ str "dial tcp: connection refused" ++ str "\n" } [str "again"] :=
  ⟨by decide,
   loop_continues_after_error remoteUnreachable (str "secret") (str "m")
    { messages := [], sent := [], stdout := [] } (str "hi") [str "again"]
    (str "dial tcp: connection refused") (by decide) (by rfl)⟩

/-- C5, as the claim states it, fails: an answer with status 201, a success
status of the range 200..299, and a body whose list of choices is empty makes
`sendRequest` return the status error, not a response. -/
theorem sendRequest_status_201_empty_choices :
    unmarshalResponse noChoicesBody = .ok { Choices := [] }
      ∧ (200 : Int) ≤ 201 ∧ (201 : Int) ≤ 299
      ∧ (sendRequest (remoteAnswering 201 noChoicesBody) [] (str "secret")
          ([] ++ [userMessage (str "hi")]) (str "m")).1
        = .error (str "API request failed with status code 201: " ++ noChoicesBody) := by
  refine ⟨by rfl, by decide, by decide, by rfl⟩

/-- C5, amended: when the remote service answers with status 200 and a body that decodes
to a response with no choice, `sendRequest` returns that response and no error,
and the turn appends nothing for the reply: the transcript after the turn is the
transcript that was sent (the transcript before the turn and the user message),
of length 1 on the first turn. -/
theorem turn_empty_choices (rt : Runtime) (apiKey model : GoString) (s : Session)
    (userInput body : GoString) (r : Response)
    (hdo : rt.Do s.sent.length (newRequest apiKey (marshalRequest
        { Model := model, Messages := s.messages ++ [userMessage userInput] }))
      = .ok { StatusCode := 200, Body := .ok body })
    (hdec : rt.Unmarshal body = .ok r)
    (hch : r.Choices = []) :
    (sendRequest rt s.sent apiKey (s.messages ++ [userMessage userInput]) model).1 = .ok r
      ∧ (turn rt apiKey model s userInput).messages = s.messages ++ [userMessage userInput]
      ∧ (s.messages = [] → (turn rt apiKey model s userInput).messages.length = 1) := by
  have hres : (sendRequest rt s.sent apiKey (s.messages ++ [userMessage userInput]) model).1
      = .ok r := by
    rw [sendRequest_of_response rt s.sent apiKey _ model 200 body hdo, ← hdec]
    simp [StatusOK]
  have hmsg : (turn rt apiKey model s userInput).messages
      = s.messages ++ [userMessage userInput] := by
    rw [turn_messages, hres]
    simp [hch]
  refine ⟨hres, hmsg, ?_⟩
  intro h0
  rw [hmsg, h0]
  rfl

theorem turn_empty_choices_witness :
    unmarshalResponse noChoicesBody = .ok { Choices := [] }
      ∧ (sendRequest (remoteAnswering 200 noChoicesBody) [] (str "secret")
          ([] ++ [userMessage (str "hi")]) (str "m")).1 = .ok { Choices := [] }
      ∧ (turn (remoteAnswering 200 noChoicesBody) (str "secret") (str "m")
          { messages := [], sent := [], stdout := [] } (str "hi")).messages
        = [] ++ [userMessage (str "hi")]
      ∧ (turn (remoteAnswering 200 noChoicesBody) (str "secret") (str "m")
          { messages := [], sent := [], stdout := [] } (str "hi")).messages.length = 1 :=
  have h := turn_empty_choices (remoteAnswering 200 noChoicesBody) (str "secret") (str "m")
    { messages := [], sent := [], stdout := [] } (str "hi") noChoicesBody { Choices := [] }
    (by rfl) (by rfl) (by rfl)
  ⟨by rfl, h.1, h.2.1, h.2.2 rfl⟩

/-- C6, as the claim states it, fails: a response with status 201 (inside
200..299) and a decodable body makes `sendRequest` return an error. -/
theorem sendRequest_status_201_is_error :
    unmarshalResponse helloBody
        = .ok { Choices := [{ Message := { Role := str "assistant", Content := str "hello" } }] }
      ∧ (200 : Int) ≤ 201 ∧ (201 : Int) ≤ 299
      ∧ (sendRequest (remoteAnswering 201 helloBody) [] (str "secret")
          [userMessage (str "hi")] (str "m")).1
        = .error (str "API request failed with status code 201: " ++ helloBody) := by
  refine ⟨by rfl, by decide, by decide, by rfl⟩

/-- C6, amended: `sendRequest` reports a remote-service failure exactly when the
status code is not 200.  With any status code other than 200 it returns the
status error, whatever the body; with status 200 and a decodable body it returns
the decoded response and no error; so for a decodable body it returns an error
exactly when the status code is not 200. -/
theorem sendRequest_fails_iff_not_200 (rt : Runtime) (sent : List HttpRequest)
    (apiKey : GoString) (messages : List Message) (model : GoString) (c : Int) (b : GoString)
    (hdo : rt.Do sent.length
      (newRequest apiKey (marshalRequest { Model := model, Messages := messages }))
        = .ok { StatusCode := c, Body := .ok b }) :
    (c ≠ 200 → (sendRequest rt sent apiKey messages model).1 = .error (statusError c b))
      ∧ ∀ r, rt.Unmarshal b = .ok r →
          (c = 200 → (sendRequest rt sent apiKey messages model).1 = .ok r)
            ∧ ((∃ e, (sendRequest rt sent apiKey messages model).1 = .error e) ↔ c ≠ 200) := by
  have h := sendRequest_of_response rt sent apiKey messages model c b hdo
  have hfail : c ≠ 200 →
      (sendRequest rt sent apiKey messages model).1 = .error (statusError c b) := by
    intro hc
    rw [h, if_pos (by simpa [StatusOK] using hc)]
  refine ⟨hfail, fun r hdec => ?_⟩
  by_cases hc : c = 200
  · have hr : (sendRequest rt sent apiKey messages model).1 = .ok r := by
      rw [h, if_neg (by simp [hc, StatusOK]), hdec]
    refine ⟨fun _ => hr, ?_⟩
    constructor
    · rintro ⟨e, he⟩
      rw [hr] at he
      cases he
    · intro hne
      exact absurd hc hne
  · exact ⟨fun h200 => absurd h200 hc, ⟨fun _ => hc, fun _ => ⟨_, hfail hc⟩⟩⟩

theorem sendRequest_fails_iff_not_200_witness :
    ((204 : Int) ≠ 200 →
        (sendRequest (remoteAnswering 204 helloBody) [] (str "secret") [userMessage (str "hi")]
          (str "m")).1 = .error (statusError 204 helloBody))
      ∧ ((204 : Int) = 200 →
        (sendRequest (remoteAnswering 204 helloBody) [] (str "secret") [userMessage (str "hi")]
          (str "m")).1
          = .ok { Choices := [{ Message := { Role := str "assistant", Content := str "hello" } }] })
      ∧ ((∃ e, (sendRequest (remoteAnswering 204 helloBody) [] (str "secret")
          [userMessage (str "hi")] (str "m")).1 = .error e) ↔ (204 : Int) ≠ 200) :=
  have h := sendRequest_fails_iff_not_200 (remoteAnswering 204 helloBody) [] (str "secret")
    [userMessage (str "hi")] (str "m") 204 helloBody (by rfl)
  ⟨h.1, h.2 { Choices := [{ Message := { Role := str "assistant", Content := str "hello" } }] }
    (by rfl)⟩

/-- C9: the transcript is created empty and only grows by appending: the
transcript before a turn is a prefix of the transcript after it, whatever the
outcome of the turn, and the transcript at any point of the loop is a prefix of
the final one; so its length never decreases. -/
theorem transcript_only_grows (getenv : GoString → GoString) (rt : Runtime)
    (apiKey model : GoString) :
    (initial getenv).messages = []
      ∧ (∀ (s : Session) (userInput : GoString),
          s.messages <+: (turn rt apiKey model s userInput).messages
            ∧ s.messages.length ≤ (turn rt apiKey model s userInput).messages.length)
      ∧ (∀ (s : Session) (lines : List GoString),
          s.messages <+: (loop rt apiKey model s lines).messages
            ∧ s.messages.length ≤ (loop rt apiKey model s lines).messages.length) :=
  ⟨rfl,
   fun s userInput => ⟨turn_keeps_transcript rt apiKey model s userInput,
     (turn_keeps_transcript rt apiKey model s userInput).length_le⟩,
   fun s lines => ⟨loop_keeps_transcript rt apiKey model lines s,
     (loop_keeps_transcript rt apiKey model lines s).length_le⟩⟩

/-- C10, as the claim states it, fails: when the first choice of the response
carries the role `tool`, the transcript holds a message whose role is neither
`user` nor `assistant`. -/
theorem transcript_holds_foreign_role :
    (main exampleEnv (remoteAnswering 200 toolBody) [str "what is 6 * 7"]).messages
        = [{ Role := str "user", Content := str "what is 6 * 7" },
           { Role := str "tool", Content := str "42" }]
      ∧ str "tool" ≠ str "user" ∧ str "tool" ≠ str "assistant" := by
  refine ⟨by rfl, by decide, by decide⟩

/-- A response returned by `sendRequest` is the decoding of the body of a status
200 answer to the request it sent. -/
theorem sendRequest_ok_inv (rt : Runtime) (sent : List HttpRequest) (apiKey : GoString)
    (messages : List Message) (model : GoString) (r : Response)
    (h : (sendRequest rt sent apiKey messages model).1 = .ok r) :
    ∃ resp body,
      rt.Do sent.length (newRequest apiKey (marshalRequest { Model := model, Messages := messages }))
          = .ok resp
        ∧ resp.StatusCode = 200 ∧ resp.Body = .ok body ∧ rt.Unmarshal body = .ok r := by
  cases hdo : rt.Do sent.length
      (newRequest apiKey (marshalRequest { Model := model, Messages := messages })) with
  | error e =>
    rw [sendRequest_transport_error rt sent apiKey messages model e hdo] at h
    cases h
  | ok resp =>
    obtain ⟨c, bd⟩ := resp
    cases bd with
    | error e =>
      unfold sendRequest at h
      simp only [hdo] at h
      cases h
    | ok body =>
      rw [sendRequest_of_response rt sent apiKey messages model c body hdo] at h
      by_cases hc : c = 200
      · rw [if_neg (by simp [hc, StatusOK])] at h
        exact ⟨_, body, rfl, hc, rfl, h⟩
      · rw [if_pos (by simpa [StatusOK] using hc)] at h
        cases h

/-- Where the messages of the transcript a loop ends with come from: the
transcript it starts with, the input lines, and the first choices of the answers
to the requests the loop sent. -/
theorem loop_message_origin (rt : Runtime) (apiKey model : GoString) (lines : List GoString)
    (s : Session) (m : Message)
    (hm : m ∈ (loop rt apiKey model s lines).messages) :
    m ∈ s.messages ∨ m.Role = str "user"
      ∨ ∃ i req resp body r c cs,
          (loop rt apiKey model s lines).sent[i]? = some req
            ∧ rt.Do i req = .ok resp ∧ resp.StatusCode = 200 ∧ resp.Body = .ok body
            ∧ rt.Unmarshal body = .ok r ∧ r.Choices = c :: cs ∧ m = c.Message := by
  induction lines generalizing s with
  | nil => exact Or.inl hm
  | cons l ls ih =>
    have hloop : loop rt apiKey model s (l :: ls)
        = if l = exitChat then prompt s
          else loop rt apiKey model (turn rt apiKey model (prompt s) l) ls := by
      rw [loop]
    by_cases hl : l = exitChat
    · rw [hloop, if_pos hl] at hm
      exact Or.inl hm
    · rw [hloop, if_neg hl] at hm ⊢
      rcases ih _ hm with h | h | h
      · rw [turn_messages] at h
        split at h
        · rcases List.mem_append.1 h with h' | h'
          · exact Or.inl h'
          · rw [List.mem_singleton.1 h']
            exact Or.inr (Or.inl rfl)
        · rename_i response hres
          rcases List.mem_append.1 h with h' | h'
          · rcases List.mem_append.1 h' with h'' | h''
            · exact Or.inl h''
            · rw [List.mem_singleton.1 h'']
              exact Or.inr (Or.inl rfl)
          · right; right
            cases hc : response.Choices with
            | nil => rw [hc] at h'; simp at h'
            | cons c cs =>
              rw [hc] at h'
              simp at h'
              obtain ⟨resp, body, hdo, hst, hbody, hr⟩ :=
                sendRequest_ok_inv rt _ apiKey _ model response hres
              obtain ⟨t, ht⟩ := loop_keeps_sent rt apiKey model ls
                (turn rt apiKey model (prompt s) l)
              refine ⟨(prompt s).sent.length, _, resp, body, response, c, cs, ?_, hdo, hst,
                hbody, hr, hc, h'⟩
              rw [← ht, turn_sent, List.append_assoc,
                List.getElem?_append_right (Nat.le_refl _), Nat.sub_self]
              simp
      · exact Or.inr (Or.inl h)
      · exact Or.inr (Or.inr h)

/-- C10, amended: every message of the transcript `main` ends with has the role
`user` or is, exactly as received, the message of the first choice of the decoded
status 200 answer to one of the requests the session sent; so when the first
choice of each such answer has the role `assistant`, every role is `user` or
`assistant`. -/
theorem main_roles (getenv : GoString → GoString) (rt : Runtime) (lines : List GoString)
    (m : Message) (hm : m ∈ (main getenv rt lines).messages) :
    (m.Role = str "user"
        ∨ ∃ i req resp body r c cs,
            (main getenv rt lines).sent[i]? = some req
              ∧ rt.Do i req = .ok resp ∧ resp.StatusCode = 200 ∧ resp.Body = .ok body
              ∧ rt.Unmarshal body = .ok r ∧ r.Choices = c :: cs ∧ m = c.Message)
      ∧ ((∀ i req resp body r c cs,
            (main getenv rt lines).sent[i]? = some req →
            rt.Do i req = .ok resp → resp.StatusCode = 200 → resp.Body = .ok body →
            rt.Unmarshal body = .ok r → r.Choices = c :: cs →
            c.Message.Role = str "assistant") →
          m.Role = str "user" ∨ m.Role = str "assistant") := by
  have h : m.Role = str "user"
      ∨ ∃ i req resp body r c cs,
          (main getenv rt lines).sent[i]? = some req
            ∧ rt.Do i req = .ok resp ∧ resp.StatusCode = 200 ∧ resp.Body = .ok body
            ∧ rt.Unmarshal body = .ok r ∧ r.Choices = c :: cs ∧ m = c.Message := by
    by_cases hkey : getenv (str "API_KEY") = []
    · unfold main at hm
      simp [hkey] at hm
    · obtain ⟨h1, h2⟩ := main_eq_loop getenv rt lines hkey
      rw [h1] at hm
      rw [h2]
      rcases loop_message_origin rt _ _ lines (initial getenv) m hm with h | h | h
      · simp [initial] at h
      · exact Or.inl h
      · exact Or.inr h
  refine ⟨h, fun hall => ?_⟩
  rcases h with h | ⟨i, req, resp, body, r, c, cs, hs, hdo, hst, hb, hu, hc, hmc⟩
  · exact Or.inl h
  · right
    rw [hmc]
    exact hall i req resp body r c cs hs hdo hst hb hu hc

theorem main_roles_witness :
    ({ Role := str "assistant", Content := str "hello" } : Message)
        ∈ (main exampleEnv (remoteAnswering 200 helloBody) [str "hi", str "again"]).messages
      ∧ (str "assistant" = str "user"
        ∨ ∃ i req resp body r c cs,
            (main exampleEnv (remoteAnswering 200 helloBody) [str "hi", str "again"]).sent[i]?
                = some req
              ∧ (remoteAnswering 200 helloBody).Do i req = .ok resp
              ∧ resp.StatusCode = 200 ∧ resp.Body = .ok body
              ∧ (remoteAnswering 200 helloBody).Unmarshal body = .ok r ∧ r.Choices = c :: cs
              ∧ ({ Role := str "assistant", Content := str "hello" } : Message) = c.Message)
      ∧ (str "assistant" = str "user" ∨ str "assistant" = str "assistant") :=
  have h := main_roles exampleEnv (remoteAnswering 200 helloBody) [str "hi", str "again"]
    { Role := str "assistant", Content := str "hello" } (by decide)
  ⟨by decide, h.1,
   h.2 (by
      intro i req resp body r c cs _ hdo _ hb hu hc
      have h1 : resp = { StatusCode := 200, Body := .ok helloBody } :=
        (Except.ok.inj hdo).symm
      rw [h1] at hb
      have h2 : body = helloBody := (Except.ok.inj hb).symm
      rw [h2] at hu
      have h3 : r = { Choices := [{ Message :=
          { Role := str "assistant", Content := str "hello" } }] } :=
        (Except.ok.inj hu).symm
      rw [h3] at hc
      cases hc
      rfl)⟩

/-! ## `unicode/utf8`: decoding and encoding a rune -/

theorem utf8First_spec (b sz lo hi : Nat) (h : utf8First b = some (sz, lo, hi)) :
    0x80 ≤ lo ∧ hi ≤ 0xBF ∧
      ((sz = 2 ∧ 0xC2 ≤ b ∧ b ≤ 0xDF)
        ∨ (sz = 3 ∧ 0xE0 ≤ b ∧ b ≤ 0xEF ∧ (b = 0xE0 → 0xA0 ≤ lo) ∧ (b = 0xED → hi ≤ 0x9F))
        ∨ (sz = 4 ∧ 0xF0 ≤ b ∧ b ≤ 0xF4 ∧ (b = 0xF0 → 0x90 ≤ lo) ∧ (b = 0xF4 → hi ≤ 0x8F))) := by
  unfold utf8First at h
  split_ifs at h <;> simp only [Option.some.injEq, Prod.mk.injEq] at h <;>
    obtain ⟨rfl, rfl, rfl⟩ := h <;> omega

theorem decodeRune_two (b s1 lo hi : Nat) (t : GoString) (hb : ¬ b < 0x80)
    (hf : utf8First b = some (2, lo, hi)) (h1 : ¬ (s1 < lo ∨ hi < s1)) :
    decodeRune (b :: s1 :: t) = (b % 32 * 64 + s1 % 64, 2) := by
  simp [decodeRune, hb, hf, h1]

theorem decodeRune_three (b s1 s2 lo hi : Nat) (t : GoString) (hb : ¬ b < 0x80)
    (hf : utf8First b = some (3, lo, hi)) (h1 : ¬ (s1 < lo ∨ hi < s1))
    (h2 : ¬ (s2 < 0x80 ∨ 0xBF < s2)) :
    decodeRune (b :: s1 :: s2 :: t) = (b % 16 * 4096 + s1 % 64 * 64 + s2 % 64, 3) := by
  simp [decodeRune, hb, hf, h1, h2]

theorem decodeRune_four (b s1 s2 s3 lo hi : Nat) (t : GoString) (hb : ¬ b < 0x80)
    (hf : utf8First b = some (4, lo, hi)) (h1 : ¬ (s1 < lo ∨ hi < s1))
    (h2 : ¬ (s2 < 0x80 ∨ 0xBF < s2)) (h3 : ¬ (s3 < 0x80 ∨ 0xBF < s3)) :
    decodeRune (b :: s1 :: s2 :: s3 :: t)
      = (b % 8 * 262144 + s1 % 64 * 4096 + s2 % 64 * 64 + s3 % 64, 4) := by
  simp [decodeRune, hb, hf, h1, h2, h3]

/-- What `decodeRune` finds at a byte that is not ASCII: an invalid encoding, or
a rune of two to four bytes whose encoding by `appendRune` is these bytes. -/
theorem decodeRune_cases (b : Nat) (rest : GoString) (hb : ¬ b < 0x80) :
    decodeRune (b :: rest) = (RuneError, 1)
      ∨ ∃ cont tail c, rest = cont ++ tail
          ∧ decodeRune (b :: rest) = (c, cont.length + 1)
          ∧ 1 ≤ cont.length
          ∧ (∀ x ∈ cont, 0x80 ≤ x ∧ x ≤ 0xBF)
          ∧ appendRune c = b :: cont
          ∧ (∀ tail2, decodeRune (b :: (cont ++ tail2)) = (c, cont.length + 1)) := by
  cases hf : utf8First b with
  | none => left; simp [decodeRune, hb, hf]
  | some t =>
    obtain ⟨sz, lo, hi⟩ := t
    obtain ⟨hlo, hhi, hsz⟩ := utf8First_spec b sz lo hi hf
    rcases hsz with ⟨rfl, hb1, hb2⟩ | ⟨rfl, hb1, hb2, hE0, hED⟩ | ⟨rfl, hb1, hb2, hF0, hF4⟩
    · -- two bytes
      cases rest with
      | nil => left; simp [decodeRune, hb, hf]
      | cons s1 t =>
        by_cases h1 : s1 < lo ∨ hi < s1
        · left; simp [decodeRune, hb, hf, h1]
        · right
          refine ⟨[s1], t, b % 32 * 64 + s1 % 64, rfl, decodeRune_two b s1 lo hi t hb hf h1,
            by simp, ?_, ?_, fun t2 => decodeRune_two b s1 lo hi t2 hb hf h1⟩
          · intro x hx
            rw [List.mem_singleton.1 hx]
            omega
          · unfold appendRune
            rw [if_neg (by omega), if_pos (by omega)]
            congr 1
            · omega
            · congr 1
              omega
    · -- three bytes
      cases rest with
      | nil => left; simp [decodeRune, hb, hf]
      | cons s1 t =>
        by_cases h1 : s1 < lo ∨ hi < s1
        · left; simp [decodeRune, hb, hf, h1]
        · cases t with
          | nil => left; simp [decodeRune, hb, hf]
          | cons s2 t =>
            by_cases h2 : s2 < 0x80 ∨ 0xBF < s2
            · left; simp [decodeRune, hb, hf, h1, h2]
            · right
              refine ⟨[s1, s2], t, b % 16 * 4096 + s1 % 64 * 64 + s2 % 64, rfl,
                decodeRune_three b s1 s2 lo hi t hb hf h1 h2, by simp, ?_, ?_,
                fun t2 => decodeRune_three b s1 s2 lo hi t2 hb hf h1 h2⟩
              · intro x hx
                simp only [List.mem_cons, List.mem_singleton, List.not_mem_nil, or_false] at hx
                rcases hx with rfl | rfl <;> omega
              · unfold appendRune
                rw [if_neg (by omega), if_neg (by omega), if_neg (by omega), if_pos (by omega)]
                congr 1
                · omega
                · congr 1
                  · omega
                  · congr 1
                    omega
    · -- four bytes
      cases rest with
      | nil => left; simp [decodeRune, hb, hf]
      | cons s1 t =>
        by_cases h1 : s1 < lo ∨ hi < s1
        · left; simp [decodeRune, hb, hf, h1]
        · cases t with
          | nil => left; simp [decodeRune, hb, hf]
          | cons s2 t =>
            by_cases h2 : s2 < 0x80 ∨ 0xBF < s2
            · left; simp [decodeRune, hb, hf, h1, h2]
            · cases t with
              | nil => left; simp [decodeRune, hb, hf]
              | cons s3 t =>
                by_cases h3 : s3 < 0x80 ∨ 0xBF < s3
                · left; simp [decodeRune, hb, hf, h1, h2, h3]
                · right
                  refine ⟨[s1, s2, s3], t,
                    b % 8 * 262144 + s1 % 64 * 4096 + s2 % 64 * 64 + s3 % 64, rfl,
                    decodeRune_four b s1 s2 s3 lo hi t hb hf h1 h2 h3, by simp, ?_, ?_,
                    fun t2 => decodeRune_four b s1 s2 s3 lo hi t2 hb hf h1 h2 h3⟩
                  · intro x hx
                    simp only [List.mem_cons, List.mem_singleton, List.not_mem_nil,
                      or_false] at hx
                    rcases hx with rfl | rfl | rfl <;> omega
                  · unfold appendRune
                    rw [if_neg (by omega), if_neg (by omega), if_neg (by omega),
                      if_neg (by omega)]
                    congr 1
                    · omega
                    · congr 1
                      · omega
                      · congr 1
                        · omega
                        · congr 1
                          omega

theorem hexDigit_isHex (x : Nat) (hx : x < 16) : isHex (hexDigit x) = true := by
  interval_cases x <;> decide

theorem hexDigit_hexVal (x : Nat) (hx : x < 16) : hexVal (hexDigit x) = x := by
  interval_cases x <;> decide

theorem scanString_quote (rest : GoString) : scanString (0x22 :: rest) = some ([], rest) := by
  simp [scanString, scanStringFrom]

theorem scanString_byte (c : Nat) (rest : GoString) (h1 : c ≠ 0x22) (h2 : c ≠ 0x5C)
    (h3 : ¬ c < 0x20) :
    scanString (c :: rest) = (scanString rest).map (fun p => (c :: p.1, p.2)) := by
  simp [scanString, scanStringFrom, h1, h2, h3]

theorem scanString_escape (e : Nat) (rest : GoString)
    (he : e = 0x62 ∨ e = 0x66 ∨ e = 0x6E ∨ e = 0x72 ∨ e = 0x74 ∨ e = 0x5C ∨ e = 0x2F
      ∨ e = 0x22) :
    scanString (0x5C :: e :: rest)
      = (scanString rest).map (fun p => (0x5C :: e :: p.1, p.2)) := by
  unfold scanString
  rw [scanStringFrom, if_neg (by decide), if_pos rfl, scanStringFrom, if_pos he]
  cases scanStringFrom StringState.inString rest <;> rfl

theorem scanString_u4 (h1 h2 h3 h4 : Nat) (rest : GoString)
    (hh : isHex h1 = true ∧ isHex h2 = true ∧ isHex h3 = true ∧ isHex h4 = true) :
    scanString (0x5C :: 0x75 :: h1 :: h2 :: h3 :: h4 :: rest)
      = (scanString rest).map (fun p => (0x5C :: 0x75 :: h1 :: h2 :: h3 :: h4 :: p.1, p.2)) := by
  unfold scanString
  rw [scanStringFrom, if_neg (by decide), if_pos rfl, scanStringFrom, if_neg (by decide),
    if_pos rfl, scanStringFrom, if_pos hh.1, scanStringFrom, if_pos hh.2.1, scanStringFrom,
    if_pos hh.2.2.1, scanStringFrom, if_pos hh.2.2.2]
  cases scanStringFrom StringState.inString rest <;> rfl

theorem scanString_plain (xs ys : GoString)
    (h : ∀ x ∈ xs, x ≠ 0x22 ∧ x ≠ 0x5C ∧ ¬ x < 0x20) :
    scanString (xs ++ ys) = (scanString ys).map (fun p => (xs ++ p.1, p.2)) := by
  induction xs with
  | nil => cases hy : scanString ys <;> simp [hy]
  | cons x xs ih =>
    obtain ⟨h1, h2, h3⟩ := h x (List.mem_cons_self _ _)
    have ih' := ih (fun y hy => h y (List.mem_cons_of_mem _ hy))
    rw [List.cons_append, scanString_byte x _ h1 h2 h3, ih']
    cases scanString ys <;> rfl

/-- The scanner reads the output of the string encoder up to its closing quote. -/
theorem scanString_appendStringLoop (n : Nat) (s tail : GoString) :
    scanString (appendStringLoop n s ++ 0x22 :: tail) = some (appendStringLoop n s, tail) := by
  induction n generalizing s with
  | zero => simp [appendStringLoop, scanString_quote]
  | succ n ih =>
    cases s with
    | nil => simp [appendStringLoop, scanString_quote]
    | cons b rest =>
      rw [appendStringLoop]
      by_cases hb : b < 0x80
      · rw [if_pos hb]
        by_cases hs : htmlSafe b = true
        · rw [if_pos hs]
          have hs' := hs
          simp only [htmlSafe, decide_eq_true_eq] at hs'
          rw [List.cons_append, scanString_byte b _ (by omega) (by omega) (by omega), ih]
          rfl
        · rw [if_neg hs]
          unfold escapeByte
          split_ifs with e1 e2 e3 e4 e5 e6
          · simp only [List.cons_append, List.nil_append]
            rw [scanString_escape b _ (by omega), ih]
            rfl
          · simp only [List.cons_append, List.nil_append]
            rw [scanString_escape _ _ (by decide), ih]
            rfl
          · simp only [List.cons_append, List.nil_append]
            rw [scanString_escape _ _ (by decide), ih]
            rfl
          · simp only [List.cons_append, List.nil_append]
            rw [scanString_escape _ _ (by decide), ih]
            rfl
          · simp only [List.cons_append, List.nil_append]
            rw [scanString_escape _ _ (by decide), ih]
            rfl
          · simp only [List.cons_append, List.nil_append]
            rw [scanString_escape _ _ (by decide), ih]
            rfl
          · simp only [List.cons_append, List.nil_append]
            rw [scanString_u4 _ _ _ _ _ ⟨by decide, by decide,
              hexDigit_isHex _ (by omega), hexDigit_isHex _ (by omega)⟩, ih]
            rfl
      · rw [if_neg hb]
        simp only
        rcases decodeRune_cases b rest hb with hd | ⟨cont, tl, c, hrest, hd, hlen, hcont, -, -⟩
        · rw [hd, if_pos ⟨rfl, rfl⟩]
          simp only [List.cons_append, List.nil_append]
          rw [scanString_u4 _ _ _ _ _ (by decide), ih]
          rfl
        · rw [hd]
          have hne : ¬ (c = RuneError ∧ cont.length + 1 = 1) := by omega
          simp only [if_neg hne, Nat.add_sub_cancel]
          have htake : rest.take cont.length = cont := by rw [hrest]; simp
          have hdrop : rest.drop cont.length = tl := by rw [hrest]; simp
          rw [htake, hdrop]
          split_ifs with h28
          · simp only [List.cons_append, List.nil_append]
            rw [scanString_u4 _ _ _ _ _ ⟨by decide, by decide, by decide,
              hexDigit_isHex _ (Nat.mod_lt _ (by decide))⟩, ih]
            rfl
          · have hplain : ∀ x ∈ b :: cont, x ≠ 0x22 ∧ x ≠ 0x5C ∧ ¬ x < 0x20 := by
              intro x hx
              rcases List.mem_cons.1 hx with rfl | hx
              · omega
              · have := hcont x hx
                omega
            rw [List.append_assoc, scanString_plain _ _ hplain, ih]
            simp

theorem unquoteLoop_nil (k : Nat) : unquoteLoop k [] = some [] := by
  cases k <;> simp [unquoteLoop]

theorem unquoteLoop_cons (fuel c : Nat) (rest : GoString) :
    unquoteLoop (fuel + 1) (c :: rest)
      = if c = 0x5C then
          match rest with
          | [] => none
          | e :: rest1 =>
            if e = 0x22 ∨ e = 0x5C ∨ e = 0x2F ∨ e = 0x27 then
              (unquoteLoop fuel rest1).map (fun t => e :: t)
            else if e = 0x62 then (unquoteLoop fuel rest1).map (fun t => 0x08 :: t)
            else if e = 0x66 then (unquoteLoop fuel rest1).map (fun t => 0x0C :: t)
            else if e = 0x6E then (unquoteLoop fuel rest1).map (fun t => 0x0A :: t)
            else if e = 0x72 then (unquoteLoop fuel rest1).map (fun t => 0x0D :: t)
            else if e = 0x74 then (unquoteLoop fuel rest1).map (fun t => 0x09 :: t)
            else if e = 0x75 then
              match getu4 (c :: rest) with
              | none => none
              | some rr =>
                let after := rest.drop 5
                if 0xD800 ≤ rr ∧ rr < 0xE000 then
                  let dec := utf16DecodeRune rr (getu4 after)
                  if dec ≠ RuneError then
                    (unquoteLoop fuel (after.drop 6)).map (fun t => appendRune dec ++ t)
                  else (unquoteLoop fuel after).map (fun t => appendRune RuneError ++ t)
                else (unquoteLoop fuel after).map (fun t => appendRune rr ++ t)
            else none
        else if c = 0x22 ∨ c < 0x20 then none
        else if c < 0x80 then (unquoteLoop fuel rest).map (fun t => c :: t)
        else
          let d := decodeRune (c :: rest)
          (unquoteLoop fuel (rest.drop (d.2 - 1))).map (fun t => appendRune d.1 ++ t) := by
  cases rest <;> rfl

theorem unquoteLoop_byte (k c : Nat) (rest : GoString) (h1 : c ≠ 0x22) (h2 : c ≠ 0x5C)
    (h3 : ¬ c < 0x20) (h4 : c < 0x80) :
    unquoteLoop (k + 1) (c :: rest) = (unquoteLoop k rest).map (fun t => c :: t) := by
  rw [unquoteLoop_cons, if_neg h2, if_neg (by omega), if_pos h4]

theorem unquoteLoop_rune (k c : Nat) (rest : GoString) (h : ¬ c < 0x80) :
    unquoteLoop (k + 1) (c :: rest)
      = (unquoteLoop k (rest.drop ((decodeRune (c :: rest)).2 - 1))).map
          (fun t => appendRune (decodeRune (c :: rest)).1 ++ t) := by
  rw [unquoteLoop_cons, if_neg (by omega), if_neg (by omega), if_neg h]

theorem unquoteLoop_escape (k e v : Nat) (rest : GoString)
    (he : (e = 0x22 ∧ v = 0x22) ∨ (e = 0x5C ∧ v = 0x5C) ∨ (e = 0x62 ∧ v = 0x08)
      ∨ (e = 0x66 ∧ v = 0x0C) ∨ (e = 0x6E ∧ v = 0x0A) ∨ (e = 0x72 ∧ v = 0x0D)
      ∨ (e = 0x74 ∧ v = 0x09)) :
    unquoteLoop (k + 1) (0x5C :: e :: rest) = (unquoteLoop k rest).map (fun t => v :: t) := by
  rw [unquoteLoop_cons, if_pos rfl]
  rcases he with ⟨rfl, rfl⟩ | ⟨rfl, rfl⟩ | ⟨rfl, rfl⟩ | ⟨rfl, rfl⟩ | ⟨rfl, rfl⟩ | ⟨rfl, rfl⟩
    | ⟨rfl, rfl⟩ <;> simp

theorem unquoteLoop_u4 (k h1 h2 h3 h4 : Nat) (rest : GoString)
    (hh : isHex h1 = true ∧ isHex h2 = true ∧ isHex h3 = true ∧ isHex h4 = true)
    (hs : ¬ (0xD800 ≤ hexVal h1 * 4096 + hexVal h2 * 256 + hexVal h3 * 16 + hexVal h4
      ∧ hexVal h1 * 4096 + hexVal h2 * 256 + hexVal h3 * 16 + hexVal h4 < 0xE000)) :
    unquoteLoop (k + 1) (0x5C :: 0x75 :: h1 :: h2 :: h3 :: h4 :: rest)
      = (unquoteLoop k rest).map (fun t =>
          appendRune (hexVal h1 * 4096 + hexVal h2 * 256 + hexVal h3 * 16 + hexVal h4) ++ t) := by
  rw [unquoteLoop_cons, if_pos rfl]
  simp only [getu4, hh, and_self, if_true, List.drop_succ_cons, List.drop_zero]
  simp [hs]

/-- Unquoting the output of the string encoder gives back a string that is valid
UTF-8. -/
theorem unquoteLoop_appendStringLoop (n : Nat) (s : GoString)
    (hv : validUTF8Loop n s = true) (hn : s.length ≤ n) (k : Nat)
    (hk : (appendStringLoop n s).length ≤ k) :
    unquoteLoop k (appendStringLoop n s) = some s := by
  induction n generalizing s k with
  | zero =>
    have : s = [] := List.length_eq_zero.1 (Nat.le_zero.1 hn)
    subst this
    simp [appendStringLoop, unquoteLoop_nil]
  | succ n ih =>
    cases s with
    | nil => simp [appendStringLoop, unquoteLoop_nil]
    | cons b rest =>
      have hrest : rest.length ≤ n := by simpa using hn
      rw [appendStringLoop] at hk ⊢
      rw [validUTF8Loop] at hv
      by_cases hb : b < 0x80
      · rw [if_pos hb] at hk hv ⊢
        by_cases hs : htmlSafe b = true
        · rw [if_pos hs] at hk ⊢
          have hs' := hs
          simp only [htmlSafe, decide_eq_true_eq] at hs'
          cases k with
          | zero => simp at hk
          | succ k =>
            rw [unquoteLoop_byte k b _ (by omega) (by omega) (by omega) hb,
              ih rest hv hrest k (by simpa using hk)]
            rfl
        · rw [if_neg hs] at hk ⊢
          have hs' : ¬ (0x20 ≤ b ∧ b < 0x80 ∧ b ≠ 0x22 ∧ b ≠ 0x5C ∧ b ≠ 0x3C ∧ b ≠ 0x3E
              ∧ b ≠ 0x26) := by
            simpa [htmlSafe] using hs
          unfold escapeByte at hk ⊢
          cases k with
          | zero => split_ifs at hk <;> simp at hk
          | succ k =>
            split_ifs at hk ⊢ with e1 e2 e3 e4 e5 e6
            all_goals simp only [List.cons_append, List.nil_append, List.length_cons] at hk ⊢
            · rw [unquoteLoop_escape k b b _ (by omega), ih rest hv hrest k (by omega)]
              rfl
            · rw [unquoteLoop_escape k _ b _ (by omega), ih rest hv hrest k (by omega)]
              rfl
            · rw [unquoteLoop_escape k _ b _ (by omega), ih rest hv hrest k (by omega)]
              rfl
            · rw [unquoteLoop_escape k _ b _ (by omega), ih rest hv hrest k (by omega)]
              rfl
            · rw [unquoteLoop_escape k _ b _ (by omega), ih rest hv hrest k (by omega)]
              rfl
            · rw [unquoteLoop_escape k _ b _ (by omega), ih rest hv hrest k (by omega)]
              rfl
            · have hx1 : b / 16 < 16 := by omega
              have hx2 : b % 16 < 16 := by omega
              rw [unquoteLoop_u4 k _ _ _ _ _ ⟨by decide, by decide, hexDigit_isHex _ hx1,
                  hexDigit_isHex _ hx2⟩
                (by rw [hexDigit_hexVal _ hx1, hexDigit_hexVal _ hx2]
                    have : hexVal 48 = 0 := by decide
                    rw [this]
                    omega),
                ih rest hv hrest k (by omega), hexDigit_hexVal _ hx1, hexDigit_hexVal _ hx2]
              have h0 : hexVal 48 = 0 := by decide
              have hval : hexVal 48 * 4096 + hexVal 48 * 256 + b / 16 * 16 + b % 16 = b := by
                rw [h0]
                omega
              rw [hval]
              have hap : appendRune b = [b] := by
                unfold appendRune
                rw [if_pos (by omega)]
              rw [hap]
              rfl
      · rw [if_neg hb] at hk hv ⊢
        simp only at hk hv ⊢
        rcases decodeRune_cases b rest hb with hd | ⟨cont, tl, c, hrest', hd, hlen, hcont, hap, hdt⟩
        · rw [hd] at hv
          simp at hv
        · rw [hd] at hk hv ⊢
          have hne : ¬ (c = RuneError ∧ cont.length + 1 = 1) := by omega
          have hne1 : ¬ (cont.length + 1 = 1) := by omega
          simp only [if_neg hne, if_neg hne1, Nat.add_sub_cancel] at hk hv ⊢
          have htake : rest.take cont.length = cont := by rw [hrest']; simp
          have hdrop : rest.drop cont.length = tl := by rw [hrest']; simp
          rw [htake, hdrop] at hk ⊢
          rw [hdrop] at hv
          have htl : tl.length ≤ n := by
            have : rest.length = cont.length + tl.length := by rw [hrest']; simp
            omega
          cases k with
          | zero => split_ifs at hk <;> simp at hk
          | succ k =>
            split_ifs at hk ⊢ with h28
            · simp only [List.cons_append, List.nil_append, List.length_cons] at hk ⊢
              have hx : c % 16 < 16 := Nat.mod_lt _ (by decide)
              have h2 : hexVal 50 = 2 := by decide
              have h0 : hexVal 48 = 0 := by decide
              have hval : hexVal 50 * 4096 + hexVal 48 * 256 + hexVal 50 * 16
                  + hexVal (hexDigit (c % 16)) = c := by
                rw [h2, h0, hexDigit_hexVal _ hx]
                rcases h28 with h | h <;> rw [h]
              rw [unquoteLoop_u4 k _ _ _ _ _ ⟨by decide, by decide, by decide,
                  hexDigit_isHex _ hx⟩ (by rw [hval]; rcases h28 with h | h <;> rw [h] <;> decide),
                ih tl hv htl k (by omega), hval, hap, hrest']
              simp
            · have hd2 := hdt (appendStringLoop n tl)
              rw [List.cons_append, unquoteLoop_rune k b _ hb]
              simp only [hd2, Nat.add_sub_cancel, List.drop_left]
              rw [ih tl hv htl k (by
                simp only [List.cons_append, List.length_cons, List.length_append] at hk
                omega), hap, hrest']
              simp

/-! ## The parser on the output of the encoder -/

theorem skipSpace_cons (c : Nat) (rest : GoString) (h : isSpace c = false) :
    skipSpace (c :: rest) = c :: rest := by
  rw [skipSpace, h]
  rfl

theorem validUTF8_unquote (s : GoString) (hv : validUTF8 s = true) :
    unquote (appendStringLoop s.length s) = some s :=
  unquoteLoop_appendStringLoop s.length s hv (Nat.le_refl _) _ (Nat.le_refl _)

/-- The parser reads an encoded string back. -/
theorem parseValue_appendString (fuel depth : Nat) (s rest : GoString)
    (hv : validUTF8 s = true) :
    parseValue (fuel + 1) depth (appendString s ++ rest) = some (Json.str s, rest) := by
  rw [parseValue]
  unfold appendString
  simp only [List.cons_append, List.append_assoc, List.nil_append]
  rw [skipSpace_cons _ _ (by decide)]
  simp only [if_true]
  rw [scanString_appendStringLoop]
  simp only [validUTF8_unquote s hv]

theorem parseMember_field (fuel depth : Nat) (name v rest : GoString)
    (hname : ∀ x ∈ name, x ≠ 0x22 ∧ x ≠ 0x5C ∧ ¬ x < 0x20)
    (hun : unquote name = some name) (hv : validUTF8 v = true) :
    parseMember (fuel + 2) depth (0x22 :: (name ++ 0x22 :: 0x3A :: (appendString v ++ rest)))
      = some ((name, Json.str v), rest) := by
  rw [parseMember]
  rw [skipSpace_cons _ _ (by decide)]
  simp only [if_true]
  rw [scanString_plain _ _ hname, scanString_quote]
  simp only [Option.map_some', List.append_nil, hun]
  rw [skipSpace_cons _ _ (by decide)]
  simp only [if_true]
  rw [parseValue_appendString _ _ _ _ hv]

theorem marshalMessage_eq (m : Message) (rest : GoString) :
    marshalMessage m ++ rest
      = 0x7B :: 0x22 :: (str "role" ++ 0x22 :: 0x3A :: (appendString m.Role
          ++ 0x2C :: 0x22 :: (str "content" ++ 0x22 :: 0x3A :: (appendString m.Content
            ++ 0x7D :: rest)))) := by
  have h1 : str "\x7b\"role\":" = 0x7B :: 0x22 :: (str "role" ++ [0x22, 0x3A]) := by decide
  have h2 : str ",\"content\":" = 0x2C :: 0x22 :: (str "content" ++ [0x22, 0x3A]) := by decide
  have h3 : str "\x7d" = [0x7D] := by decide
  unfold marshalMessage
  rw [h1, h2, h3]
  simp [List.append_assoc]

/-- The parser reads an encoded `Message` back as its JSON value. -/
theorem parseValue_marshalMessage (fuel depth : Nat) (m : Message) (rest : GoString)
    (hd : depth < maxNestingDepth)
    (hr : validUTF8 m.Role = true) (hc : validUTF8 m.Content = true) :
    parseValue (fuel + 4) depth (marshalMessage m ++ rest) = some (messageJson m, rest) := by
  rw [marshalMessage_eq, parseValue, skipSpace_cons _ _ (by decide)]
  simp only [show ¬ ((0x7B : Nat) = 0x22) by decide, show ¬ ((0x7B : Nat) = 0x5B) by decide,
    if_false, if_true, if_neg (Nat.not_le.2 hd)]
  rw [skipSpace_cons _ _ (by decide)]
  simp only [show ¬ ((0x22 : Nat) = 0x7D) by decide, if_false]
  rw [parseMember_field (fuel + 1) (depth + 1) (str "role") m.Role _ (by decide) (by decide) hr]
  simp only
  rw [parseMembers, skipSpace_cons _ _ (by decide)]
  simp only [show ¬ ((0x2C : Nat) = 0x7D) by decide, if_false, if_true]
  rw [parseMember_field fuel (depth + 1) (str "content") m.Content _ (by decide) (by decide) hc]
  simp only
  rw [parseMembers, skipSpace_cons _ _ (by decide)]
  simp only [if_true]
  rfl

theorem marshalElems_cons (m : Message) (ms : List Message) :
    marshalElems (m :: ms)
      = marshalMessage m ++ ms.flatMap (fun x => 0x2C :: marshalMessage x) := by
  induction ms generalizing m with
  | nil => simp [marshalElems]
  | cons m2 ms ih =>
    rw [marshalElems, ih m2]
    · simp [List.flatMap_cons]
    · intro h; cases h

/-- The parser reads the remaining elements of an encoded slice. -/
theorem parseElems_marshal (ms : List Message) (fuel depth : Nat) (rest : GoString)
    (hd : depth < maxNestingDepth) (hf : ms.length + 4 ≤ fuel)
    (hv : ∀ m ∈ ms, validUTF8 m.Role = true ∧ validUTF8 m.Content = true) :
    parseElems fuel depth (ms.flatMap (fun x => 0x2C :: marshalMessage x) ++ 0x5D :: rest)
      = some (ms.map messageJson, rest) := by
  induction ms generalizing fuel with
  | nil =>
    obtain ⟨f, rfl⟩ : ∃ f, fuel = f + 1 := ⟨fuel - 1, by simp at hf; omega⟩
    rw [List.flatMap_nil, List.nil_append, parseElems, skipSpace_cons _ _ (by decide)]
    simp
  | cons m ms ih =>
    obtain ⟨f, rfl⟩ : ∃ f, fuel = f + 1 := ⟨fuel - 1, by simp at hf; omega⟩
    obtain ⟨g, rfl⟩ : ∃ g, f = g + 4 := ⟨f - 4, by simp at hf; omega⟩
    obtain ⟨hr, hc⟩ := hv m (List.mem_cons_self _ _)
    simp only [List.flatMap_cons, List.cons_append, List.append_assoc]
    rw [parseElems, skipSpace_cons _ _ (by decide)]
    simp only [show ¬ ((0x2C : Nat) = 0x5D) by decide, if_false, if_true]
    rw [parseValue_marshalMessage g depth m _ hd hr hc]
    simp only
    rw [ih (g + 4) (by simp at hf; omega) (fun x hx => hv x (List.mem_cons_of_mem _ hx))]
    rfl

/-- The parser reads an encoded slice of messages back as a JSON array. -/
theorem parseValue_marshalMessages (ms : List Message) (fuel : Nat) (rest : GoString)
    (hf : ms.length + 4 ≤ fuel)
    (hv : ∀ m ∈ ms, validUTF8 m.Role = true ∧ validUTF8 m.Content = true) :
    parseValue fuel 0 (marshalMessages ms ++ rest) = some (Json.arr (ms.map messageJson), rest) := by
  obtain ⟨f, rfl⟩ : ∃ f, fuel = f + 1 := ⟨fuel - 1, by omega⟩
  unfold marshalMessages
  cases ms with
  | nil =>
    rw [parseValue]
    simp only [marshalElems, List.nil_append, List.cons_append]
    rw [skipSpace_cons _ _ (by decide)]
    simp only [show ¬ ((0x5B : Nat) = 0x22) by decide, if_false, if_true,
      show ¬ (maxNestingDepth ≤ 0) by decide]
    rw [skipSpace_cons _ _ (by decide)]
    simp
  | cons m ms =>
    obtain ⟨g, rfl⟩ : ∃ g, f = g + 4 := ⟨f - 4, by simp at hf; omega⟩
    obtain ⟨hr, hc⟩ := hv m (List.mem_cons_self _ _)
    have hne : ∃ c t, marshalMessage m ++ (ms.flatMap (fun x => 0x2C :: marshalMessage x)
        ++ 0x5D :: rest) = c :: t ∧ c = 0x7B := by
      rw [marshalMessage_eq]
      exact ⟨_, _, rfl, rfl⟩
    obtain ⟨c, t, hct, hc7⟩ := hne
    rw [parseValue, marshalElems_cons]
    simp only [List.cons_append, List.append_assoc, List.nil_append]
    rw [skipSpace_cons _ _ (by decide)]
    simp only [show ¬ ((0x5B : Nat) = 0x22) by decide, if_false, if_true,
      show ¬ (maxNestingDepth ≤ 0) by decide]
    rw [hct, skipSpace_cons _ _ (by rw [hc7]; decide)]
    simp only [show ¬ (c = 0x5D) by rw [hc7]; decide, if_false]
    rw [← hct, parseValue_marshalMessage g 1 m _ (by decide) hr hc]
    simp only
    rw [parseElems_marshal ms (g + 4) 1 rest (by decide) (by simp at hf; omega)
      (fun x hx => hv x (List.mem_cons_of_mem _ hx))]
    rfl

theorem decodeMessage_messageJson (m : Message) :
    decodeMessage { Role := [], Content := [] } (messageJson m) = some m := by
  have h1 : findField [str "role", str "content"] (str "role") = some (str "role") := by decide
  have h2 : findField [str "role", str "content"] (str "content") = some (str "content") := by
    decide
  have h3 : ¬ (str "content" = str "role") := by decide
  simp [messageJson, decodeMessage, decodeMessageFields, decodeMessageField, h1, h2, h3,
    decodeString]

theorem decodeMessageElems_map (ms : List Message) :
    decodeMessageElems (ms.map messageJson) = some ms := by
  induction ms with
  | nil => rfl
  | cons m ms ih =>
    rw [List.map_cons, decodeMessageElems, decodeMessage_messageJson, ih]
    rfl

theorem flatMap_marshal_length (ms : List Message) :
    ms.length ≤ (ms.flatMap (fun x => 0x2C :: marshalMessage x)).length := by
  induction ms with
  | nil => simp
  | cons m ms ih =>
    simp only [List.flatMap_cons, List.length_append, List.length_cons]
    omega

theorem marshalMessages_length (m : Message) (ms : List Message) :
    (m :: ms).length + 3 ≤ (marshalMessages (m :: ms)).length := by
  have h := flatMap_marshal_length ms
  have hm : 2 ≤ (marshalMessage m).length := by
    have e := marshalMessage_eq m []
    rw [List.append_nil] at e
    rw [e]
    simp only [List.length_cons]
    omega
  unfold marshalMessages
  rw [marshalElems_cons]
  simp only [List.length_append, List.length_cons, List.length_nil]
  omega

/-- Decoding the JSON of a slice of messages whose strings are valid UTF-8 gives
the slice back. -/
theorem unmarshalMessages_marshalMessages (ms : List Message)
    (hv : ∀ m ∈ ms, validUTF8 m.Role = true ∧ validUTF8 m.Content = true) :
    unmarshalMessages (marshalMessages ms) = some ms := by
  cases ms with
  | nil => decide
  | cons m ms =>
    unfold unmarshalMessages parseJson
    have hlen := marshalMessages_length m ms
    have h := parseValue_marshalMessages (m :: ms) ((marshalMessages (m :: ms)).length + 1) []
      (by omega) hv
    rw [List.append_nil] at h
    rw [h]
    simp only [skipSpace, List.isEmpty_nil, if_true, decodeMessages]
    exact decodeMessageElems_map (m :: ms)

/-! ## The claim about serialisation -/

/-- C7, as the claim states it, fails: a transcript whose content holds the byte
0xFF (not valid UTF-8) is serialised with U+FFFD in its place, and decoding gives
the bytes EF BF BD, not the original byte. -/
theorem roundtrip_fails_on_invalid_utf8 :
    marshalMessages [{ Role := str "user", Content := [0xFF] }]
        = str "[\x7b\"role\":\"user\",\"content\":\"\\ufffd\"\x7d]"
      ∧ unmarshalMessages (marshalMessages [{ Role := str "user", Content := [0xFF] }])
        = some [{ Role := str "user", Content := [0xEF, 0xBF, 0xBD] }]
      ∧ unmarshalMessages (marshalMessages [{ Role := str "user", Content := [0xFF] }])
        ≠ some [{ Role := str "user", Content := [0xFF] }] := by
  refine ⟨by decide, by decide, by decide⟩

/-- C7, amended: for every `K` and every transcript of `K` messages whose roles
and contents are valid UTF-8, decoding the JSON of the transcript succeeds and
gives exactly the `K` messages, with the same roles and contents in the same
order. -/
theorem roundtrip_valid_utf8 (K : Nat) (ms : List Message) (hK : ms.length = K)
    (hv : ∀ m ∈ ms, validUTF8 m.Role = true ∧ validUTF8 m.Content = true) :
    ∃ out, unmarshalMessages (marshalMessages ms) = some out ∧ out.length = K ∧ out = ms :=
  ⟨ms, unmarshalMessages_marshalMessages ms hv, hK, rfl⟩

theorem roundtrip_valid_utf8_witness :
    ∃ out, unmarshalMessages (marshalMessages
          [{ Role := str "user", Content := str "héllo \"you\"\n" },
           { Role := str "assistant", Content := str "<ok> \\ 😀" }]) = some out
        ∧ out.length = 2
        ∧ out = [{ Role := str "user", Content := str "héllo \"you\"\n" },
           { Role := str "assistant", Content := str "<ok> \\ 😀" }] :=
  roundtrip_valid_utf8 2
    [{ Role := str "user", Content := str "héllo \"you\"\n" },
     { Role := str "assistant", Content := str "<ok> \\ 😀" }] rfl (by decide)

/-! ## The request on the wire -/

/-- The parser reads an encoded slice of messages back as a JSON array, at any
nesting depth that leaves room for the array and its objects. -/
theorem parseValue_marshalMessages_at (ms : List Message) (fuel depth : Nat) (rest : GoString)
    (hd : depth + 1 < maxNestingDepth) (hf : ms.length + 4 ≤ fuel)
    (hv : ∀ m ∈ ms, validUTF8 m.Role = true ∧ validUTF8 m.Content = true) :
    parseValue fuel depth (marshalMessages ms ++ rest)
      = some (Json.arr (ms.map messageJson), rest) := by
  obtain ⟨f, rfl⟩ : ∃ f, fuel = f + 1 := ⟨fuel - 1, by omega⟩
  have hd0 : ¬ (maxNestingDepth ≤ depth) := by omega
  unfold marshalMessages
  cases ms with
  | nil =>
    rw [parseValue]
    simp only [marshalElems, List.nil_append, List.cons_append]
    rw [skipSpace_cons _ _ (by decide)]
    simp only [show ¬ ((0x5B : Nat) = 0x22) by decide, if_false, if_true, hd0]
    rw [skipSpace_cons _ _ (by decide)]
    simp
  | cons m ms =>
    obtain ⟨g, rfl⟩ : ∃ g, f = g + 4 := ⟨f - 4, by simp at hf; omega⟩
    obtain ⟨hr, hc⟩ := hv m (List.mem_cons_self _ _)
    have hne : ∃ c t, marshalMessage m ++ (ms.flatMap (fun x => 0x2C :: marshalMessage x)
        ++ 0x5D :: rest) = c :: t ∧ c = 0x7B := by
      rw [marshalMessage_eq]
      exact ⟨_, _, rfl, rfl⟩
    obtain ⟨c, t, hct, hc7⟩ := hne
    rw [parseValue, marshalElems_cons]
    simp only [List.cons_append, List.append_assoc, List.nil_append]
    rw [skipSpace_cons _ _ (by decide)]
    simp only [show ¬ ((0x5B : Nat) = 0x22) by decide, if_false, if_true, hd0]
    rw [hct, skipSpace_cons _ _ (by rw [hc7]; decide)]
    simp only [show ¬ (c = 0x5D) by rw [hc7]; decide, if_false]
    rw [← hct, parseValue_marshalMessage g (depth + 1) m _ hd hr hc]
    simp only
    rw [parseElems_marshal ms (g + 4) (depth + 1) rest hd (by simp at hf; omega)
      (fun x hx => hv x (List.mem_cons_of_mem _ hx))]
    rfl

theorem parseMember_messages (fuel depth : Nat) (name : GoString) (ms : List Message)
    (rest : GoString)
    (hname : ∀ x ∈ name, x ≠ 0x22 ∧ x ≠ 0x5C ∧ ¬ x < 0x20)
    (hun : unquote name = some name)
    (hd : depth + 1 < maxNestingDepth) (hf : ms.length + 4 ≤ fuel)
    (hv : ∀ m ∈ ms, validUTF8 m.Role = true ∧ validUTF8 m.Content = true) :
    parseMember (fuel + 1) depth (0x22 :: (name ++ 0x22 :: 0x3A :: (marshalMessages ms ++ rest)))
      = some ((name, Json.arr (ms.map messageJson)), rest) := by
  rw [parseMember]
  rw [skipSpace_cons _ _ (by decide)]
  simp only [if_true]
  rw [scanString_plain _ _ hname, scanString_quote]
  simp only [Option.map_some', List.append_nil, hun]
  rw [skipSpace_cons _ _ (by decide)]
  simp only [if_true]
  rw [parseValue_marshalMessages_at ms fuel depth rest hd hf hv]

theorem marshalRequest_eq (r : Request) (rest : GoString) :
    marshalRequest r ++ rest
      = 0x7B :: 0x22 :: (str "model" ++ 0x22 :: 0x3A :: (appendString r.Model
          ++ 0x2C :: 0x22 :: (str "messages" ++ 0x22 :: 0x3A :: (marshalMessages r.Messages
            ++ 0x7D :: rest)))) := by
  have h1 : str "\x7b\"model\":" = 0x7B :: 0x22 :: (str "model" ++ [0x22, 0x3A]) := by decide
  have h2 : str ",\"messages\":" = 0x2C :: 0x22 :: (str "messages" ++ [0x22, 0x3A]) := by
    decide
  have h3 : str "\x7d" = [0x7D] := by decide
  unfold marshalRequest
  rw [h1, h2, h3]
  simp [List.append_assoc]

/-- The parser reads an encoded `Request` back as its JSON value. -/
theorem parseValue_marshalRequest (fuel : Nat) (r : Request) (rest : GoString)
    (hf : r.Messages.length + 7 ≤ fuel)
    (hm : validUTF8 r.Model = true)
    (hv : ∀ m ∈ r.Messages, validUTF8 m.Role = true ∧ validUTF8 m.Content = true) :
    parseValue fuel 0 (marshalRequest r ++ rest) = some (requestJson r, rest) := by
  obtain ⟨g, rfl⟩ : ∃ g, fuel = g + 3 := ⟨fuel - 3, by omega⟩
  rw [marshalRequest_eq, parseValue, skipSpace_cons _ _ (by decide)]
  simp only [show ¬ ((0x7B : Nat) = 0x22) by decide, show ¬ ((0x7B : Nat) = 0x5B) by decide,
    if_false, if_true, show ¬ (maxNestingDepth ≤ 0) by decide]
  rw [skipSpace_cons _ _ (by decide)]
  simp only [show ¬ ((0x22 : Nat) = 0x7D) by decide, if_false]
  rw [parseMember_field g (0 + 1) (str "model") r.Model _ (by decide) (by decide) hm]
  simp only
  rw [parseMembers, skipSpace_cons _ _ (by decide)]
  simp only [show ¬ ((0x2C : Nat) = 0x7D) by decide, if_false, if_true]
  rw [parseMember_messages g (0 + 1) (str "messages") r.Messages _ (by decide) (by decide)
    (by decide) (by omega) hv]
  simp only
  rw [parseMembers, skipSpace_cons _ _ (by decide)]
  simp only [if_true]
  rfl

theorem decodeMessageElemsOver_nil (ms : List Message) :
    decodeMessageElemsOver [] (ms.map messageJson) = some ms := by
  induction ms with
  | nil => rfl
  | cons m ms ih =>
    rw [List.map_cons, decodeMessageElemsOver]
    simp only [List.headD_nil, List.tail_nil]
    rw [decodeMessage_messageJson, ih]
    rfl

theorem decodeRequest_requestJson (r : Request) :
    decodeRequest { Model := [], Messages := [] } (requestJson r) = some r := by
  have h1 : findField [str "model", str "messages"] (str "model") = some (str "model") := by
    decide
  have h2 : findField [str "model", str "messages"] (str "messages")
      = some (str "messages") := by decide
  have h3 : ¬ (str "messages" = str "model") := by decide
  simp only [requestJson, decodeRequest, decodeRequestFields, h1, h2, h3, if_true, if_false,
    decodeString, decodeMessagesOver, List.append_nil, decodeMessageElemsOver_nil]
  cases hms : r.Messages with
  | nil => simp [hms]; cases r; simp_all
  | cons m ms => simp; cases r; simp_all

theorem marshalRequest_length (r : Request) :
    r.Messages.length + 6 ≤ (marshalRequest r).length := by
  have e := marshalRequest_eq r []
  rw [List.append_nil] at e
  rw [e]
  have hlen : r.Messages.length ≤ (marshalMessages r.Messages).length := by
    cases hms : r.Messages with
    | nil => simp
    | cons m ms =>
      have := marshalMessages_length m ms
      omega
  simp only [List.length_cons, List.length_append]
  omega

/-- Decoding the JSON of a payload whose strings are valid UTF-8 gives the
payload back. -/
theorem unmarshalRequest_marshalRequest (r : Request)
    (hm : validUTF8 r.Model = true)
    (hv : ∀ m ∈ r.Messages, validUTF8 m.Role = true ∧ validUTF8 m.Content = true) :
    unmarshalRequest (marshalRequest r) = some r := by
  unfold unmarshalRequest parseJson
  have hlen := marshalRequest_length r
  have h := parseValue_marshalRequest ((marshalRequest r).length + 1) r [] (by omega) hm hv
  rw [List.append_nil] at h
  rw [h]
  simp only [skipSpace, List.isEmpty_nil, if_true]
  exact decodeRequest_requestJson r

/-- C8, as the claim states it, fails: for an input line that holds the byte 0xFF
the transcript holds the line as it is, but the messages of the request sent
hold U+FFFD in its place, and the request is the same as for a line that holds
the byte 0xFE. -/
theorem request_alters_invalid_utf8 :
    (main exampleEnv remoteUnreachable [[0xFF]]).messages
        = [{ Role := str "user", Content := [0xFF] }]
      ∧ (main exampleEnv remoteUnreachable [[0xFF]]).sent.map (fun req => req.Body)
        = [str ("\x7b\"model\":\"llama-3.1-70b-versatile\",\"messages\":"
            ++ "[\x7b\"role\":\"user\",\"content\":\"\\ufffd\"\x7d]\x7d")]
      ∧ (main exampleEnv remoteUnreachable [[0xFF]]).sent.map
          (fun req => unmarshalRequest req.Body)
        = [some { Model := str "llama-3.1-70b-versatile"
                  Messages := [{ Role := str "user", Content := [0xEF, 0xBF, 0xBD] }] }]
      ∧ (main exampleEnv remoteUnreachable [[0xFF]]).sent
        = (main exampleEnv remoteUnreachable [[0xFE]]).sent := by
  refine ⟨by rfl, by decide, by decide, by decide⟩

/-- C8, amended: on the turn of a line that is not the sentinel, after earlier
lines without the sentinel, the request `main` sends is the POST to `apiURL`
with the two headers whose body, read as JSON, has the model field equal to the
configured model identifier and the messages field equal to the whole transcript
of the earlier turns, in order, followed by the user message of the line, nothing
dropped, reordered or altered, provided the model identifier and the roles and
contents of these messages are valid UTF-8. -/
theorem main_request_payload (getenv : GoString → GoString) (rt : Runtime)
    (pre : List GoString) (line : GoString) (post : List GoString)
    (hkey : getenv (str "API_KEY") ≠ [])
    (hpre : ∀ l ∈ pre, l ≠ exitChat)
    (hline : line ≠ exitChat)
    (hmodel : validUTF8 (chosenModel getenv) = true)
    (hvalid : ∀ m ∈ (main getenv rt pre).messages ++ [{ Role := str "user", Content := line }],
      validUTF8 m.Role = true ∧ validUTF8 m.Content = true) :
    ∃ body,
      (main getenv rt (pre ++ line :: post)).sent[pre.length]?
          = some { Method := str "POST"
                   URL := str "https://api.groq.com/openai/v1/chat/completions"
                   Header := [(str "Content-Type", str "application/json"),
                     (str "Authorization", str "Bearer " ++ getenv (str "API_KEY"))]
                   Body := body }
        ∧ unmarshalRequest body
          = some { Model := chosenModel getenv
                   Messages := (main getenv rt pre).messages
                     ++ [{ Role := str "user", Content := line }] } := by
  refine ⟨marshalRequest ⟨chosenModel getenv,
      (main getenv rt pre).messages ++ [{ Role := str "user", Content := line }]⟩,
    ?_, unmarshalRequest_marshalRequest _ hmodel hvalid⟩
  obtain ⟨h1, _⟩ := main_state_of_turns getenv rt pre hkey hpre
  obtain ⟨_, h2⟩ := main_eq_loop getenv rt (pre ++ line :: post) hkey
  rw [h1, h2]
  have hsplit : pre ++ line :: post = (pre ++ [line]) ++ post := by simp
  have hpl : ∀ l ∈ pre ++ [line], l ≠ exitChat := by
    intro l hl
    rcases List.mem_append.1 hl with h | h
    · exact hpre l h
    · rw [List.mem_singleton.1 h]
      exact hline
  rw [hsplit, loop_append rt _ _ (pre ++ [line]) post hpl]
  obtain ⟨t, ht⟩ := loop_keeps_sent rt (getenv (str "API_KEY")) (chosenModel getenv) post
    (turns rt (getenv (str "API_KEY")) (chosenModel getenv) (initial getenv) (pre ++ [line]))
  rw [← ht, turns_snoc, turn_sent]
  have hlen : (prompt (turns rt (getenv (str "API_KEY")) (chosenModel getenv) (initial getenv)
      pre)).sent.length = pre.length := by
    have := turns_sent_length rt (getenv (str "API_KEY")) (chosenModel getenv) pre
      (initial getenv)
    simpa [prompt, initial] using this
  rw [List.append_assoc, List.getElem?_append_right (by omega), hlen, Nat.sub_self]
  simp [prompt, userMessage, newRequest, apiURL]

theorem main_request_payload_witness :
    ∃ body,
      (main exampleEnv (remoteAnswering 200 helloBody)
          ([str "hi"] ++ str "née" :: [str "bye"])).sent[1]?
          = some { Method := str "POST"
                   URL := str "https://api.groq.com/openai/v1/chat/completions"
                   Header := [(str "Content-Type", str "application/json"),
                     (str "Authorization", str "Bearer " ++ exampleEnv (str "API_KEY"))]
                   Body := body }
        ∧ unmarshalRequest body
          = some { Model := chosenModel exampleEnv
                   Messages := (main exampleEnv (remoteAnswering 200 helloBody) [str "hi"]).messages
                     ++ [{ Role := str "user", Content := str "née" }] } :=
  main_request_payload exampleEnv (remoteAnswering 200 helloBody) [str "hi"] (str "née")
    [str "bye"] (by decide) (by decide) (by decide) (by decide) (by decide)

end Goroq
